import Mathlib

/-!
# DerekHu8/portfolio — the two shells of `CSystemsProgramming`

A shallow embedding of `Hu,_Derek_ModifiedShell.c` (the job-control shell and
its SIGCHLD handler) and of `Hu,_Derek_pipingShell.c` (the three-stage pipeline
shell), followed by the properties established about them.

Conventions of the embedding

* A C string is a `List Char`: the characters before the terminating NUL,
  one byte each.
* Both files copy every token with `strcpy` into a block obtained with
  `malloc(sizeof(char))`, respectively `malloc(sizeof(char*))`. On the platform
  the programs run on (64-bit, glibc) such a block has room for `smallBlock`
  = 24 bytes before the next block begins. A copy of at most that many bytes,
  the NUL included, leaves the heap intact and the embedding keeps the token;
  a longer copy writes into the neighbouring block and the embedding stops
  there with `Fault.heapOverflow`. Apart from this the heap is not modelled.
* A process is explicit state: its descriptor table, its children, the
  terminal's foreground group, and the list of system calls it has made so far
  (`trace`, oldest first).
* `fork` in the calling process returns the child's id; the value `0` is what
  the child sees.  `fork`, `pipe`, `setpgid` and `tcsetpgrp` are taken to
  succeed.  The source ignores the return values of `close` and `dup`, so these
  are total: a call that the kernel would refuse leaves the table unchanged.
* A blocking `wait` or `waitpid` is a single step that returns once the child
  it reports has terminated; every child is taken to terminate. Which child a
  `wait` reports is the kernel's choice and a parameter of the embedding.
* The SIGCHLD handler is a function of its own; its interleaving with `main`
  is not modelled.
* Reading through an index that is outside the array, or writing at
  `line[-1]`, is undefined behaviour in C; the embedding stops there with a
  `Fault` too.
-/

namespace Portfolio

/-- C string: the characters before the terminating NUL. -/
abbrev CStr := List Char

/-! ## libc pieces shared by the two shells -/

/-- One call of `strtok` on the text that is still unread: skip the leading
delimiter characters; at the end of the text the result is `NULL` (`none`);
otherwise the token is the longest run without a delimiter character, and the
scan resumes after the delimiter that ended it. `delim` is a SET of characters. -/
def strtok (delim : CStr) (s : CStr) : Option (CStr × CStr) :=
  match s.dropWhile (fun c => decide (c ∈ delim)) with
  | [] => none
  | c :: cs =>
    some ((c :: cs).takeWhile (fun c => !decide (c ∈ delim)),
          ((c :: cs).dropWhile (fun c => !decide (c ∈ delim))).drop 1)

/-- The stores `line[strlen(line) - 1] = 0` that follow every `getline`: the
last character of the line is dropped. On a line of length 0 the store goes to
`line[-1]`. -/
def chop : CStr → Option CStr
  | [] => none
  | c :: cs => some (c :: cs).dropLast

/-- The tokens that `strtok(s, delim)` and the calls `strtok(NULL, delim)` after
it return, up to the first `NULL`. `fuel` bounds the number of calls. -/
def tokenLoop (delim : CStr) : Nat → CStr → List CStr
  | 0, _ => []
  | fuel + 1, s =>
    match strtok delim s with
    | none => []
    | some (tok, rest) => tok :: tokenLoop delim fuel rest

/-- All tokens of `s`: every call consumes a character, so `s.length + 1` calls
reach the `NULL`. -/
def tokens (delim : CStr) (s : CStr) : List CStr :=
  tokenLoop delim (s.length + 1) s

/-! ## ModifiedShell.c -/

/-- Signals the job-control shell names. -/
inductive Sig
  | SIGCHLD
  | SIGTTOU
  deriving DecidableEq, Repr

/-- Dispositions passed to `signal`. -/
inductive Disp
  | SIG_IGN
  | SIG_DFL
  | handler
  deriving DecidableEq, Repr

/-- What the shell process does that is visible outside it, in program order. -/
inductive Ev
  | signal (s : Sig) (d : Disp)
  | prompt
  | fork (child : Nat)
  | setpgid (pid pgid : Nat)
  | tcsetpgrp (fd pgrp : Nat)
  | waitpid (pid : Int) (options : Nat)
  | execvp (file : Option CStr) (argv : List (Option CStr))
  | printf (text : CStr)
  deriving DecidableEq, Repr

/-- Undefined behaviour the embedding stops at, and the end of the input. -/
inductive Fault
  /-- Read of `arr[i]` with `i` outside `0 .. numElements-1`. -/
  | indexOutOfRange (i : Int)
  /-- Call of `strcmp` or `strcpy` applied to `NULL`. -/
  | nullString
  /-- The store `line[strlen(line) - 1] = 0` on a line of length 0. -/
  | storeBeforeLine
  /-- No further line from `getline`; what the source does then is not modelled. -/
  | endOfInput
  /-- The round bound of a loop of the embedding was used up; `waitLoop_ok`
  shows that the bound `pipingMain` passes is never reached. -/
  | outOfFuel
  /-- A `strcpy` that writes `bytes` bytes into a block with room for `room`. -/
  | heapOverflow (bytes room : Nat)
  deriving DecidableEq, Repr

/-- Room, in bytes, of the block that `malloc(sizeof(char))` and
`malloc(sizeof(char*))` return on the platform the programs run on (64-bit,
glibc): the smallest block the allocator hands out. -/
def smallBlock : Nat := 24

/-- The pair `p = malloc(...); strcpy(p, src);` of lines 40-41 of
ModifiedShell.c and lines 39-40 of pipingShell.c: `strcpy` writes the
characters of `src` and the NUL into the new block. The result is the string
the block then holds. -/
def mallocStrcpy (src : CStr) : Except Fault CStr :=
  if src.length + 1 ≤ smallBlock then .ok src
  else .error (.heapOverflow (src.length + 1) smallBlock)

/-- The shell process together with the kernel state it acts on. -/
structure Shell where
  /-- Process id of the shell. -/
  self : Nat
  /-- Process group of every process. -/
  pgid : Nat → Nat
  /-- Foreground process group of the terminal (descriptor 0). -/
  fg : Nat
  /-- Id the next `fork` hands to the child. -/
  nextPid : Nat
  /-- Children of the shell that have not been waited for. -/
  children : List Nat
  /-- Disposition of SIGTTOU in the shell. -/
  sigttou : Disp
  /-- System calls and prompts so far, oldest first. -/
  trace : List Ev

/-- Append one event to the trace. -/
def Shell.emit (st : Shell) (e : Ev) : Shell :=
  { st with trace := st.trace ++ [e] }

/-- The loop of lines 37-44: one `strtok` result per round, each non-NULL token
is copied into a new block (lines 40-41) that is appended to `arr`. `fuel`
bounds the rounds; `splitLine` gives it more than the loop can use. -/
def splitLoop : Nat → Option (CStr × CStr) → List (Option CStr) →
    Except Fault (List (Option CStr))
  | 0, _, arr => .ok arr
  | _ + 1, none, arr => .ok arr
  | fuel + 1, some (tok, rest), arr =>
    match mallocStrcpy tok with
    | .error f => .error f
    | .ok copy => splitLoop fuel (strtok [' '] rest) (arr ++ [some copy])

/-- Lines 32-50: `arr` holds the tokens of the line followed by `NULL`, and
`numElements` counts those entries, the `NULL` included. -/
def splitLine (line : CStr) : Except Fault (List (Option CStr) × Int) :=
  match splitLoop (line.length + 1) (strtok [' '] line) [] with
  | .error f => .error f
  | .ok arr =>
    let arr := arr ++ [none]
    .ok (arr, (arr.length : Int))

/-- The read `arr[i]`. -/
def readArr (arr : List (Option CStr)) (i : Int) : Except Fault (Option CStr) :=
  if i < 0 then .error (.indexOutOfRange i)
  else match arr.get? i.toNat with
    | none => .error (.indexOutOfRange i)
    | some e => .ok e

/-- The test `strcmp(arr[numElements-2], "&") != 0` of lines 53 and 68. -/
def notAmpersand (arr : List (Option CStr)) (numElements : Int) : Except Fault Bool :=
  match readArr arr (numElements - 2) with
  | .error f => .error f
  | .ok none => .error .nullString
  | .ok (some s) => .ok (s != ['&'])

/-- The call `fork()` as the shell sees it: a new child with the next id, in
the shell's process group. -/
def Shell.fork (st : Shell) : Nat × Shell :=
  let c := st.nextPid
  (c, { st with
          nextPid := c + 1
          children := c :: st.children
          pgid := fun p => if p = c then st.pgid st.self else st.pgid p
          trace := st.trace ++ [.fork c] })

/-- The call `setpgid(pid, pgid)`. -/
def Shell.setpgid (st : Shell) (pid pgid : Nat) : Shell :=
  { st with
      pgid := fun p => if p = pid then pgid else st.pgid p
      trace := st.trace ++ [.setpgid pid pgid] }

/-- The call `tcsetpgrp(0, pgrp)`. -/
def Shell.tcsetpgrp (st : Shell) (pgrp : Nat) : Shell :=
  { st with fg := pgrp, trace := st.trace ++ [.tcsetpgrp 0 pgrp] }

/-- The call `signal(SIGTTOU, d)`. -/
def Shell.signalTtou (st : Shell) (d : Disp) : Shell :=
  { st with sigttou := d, trace := st.trace ++ [.signal .SIGTTOU d] }

/-- The call `waitpid(childPid, &status, 0)`: it returns once that child has
terminated, and the child is no longer one to be waited for. -/
def Shell.waitpid (st : Shell) (pid : Nat) : Shell :=
  { st with
      children := st.children.erase pid
      trace := st.trace ++ [.waitpid pid 0] }

/-- Lines 56-64, the side of the `fork` that sees `childPid == 0`:
`setpgid(0, 0)`, then `execvp`; when `execvp` comes back the child prints and
leaves `main` with `-1`. The result is what the child did and, when `execvp`
failed, the value `main` returns. -/
def foregroundChild (arr : List (Option CStr)) (execOk : Bool) : List Ev × Option Int :=
  let evs := [Ev.setpgid 0 0, Ev.execvp (arr.head?.join) arr]
  if execOk then (evs, none)
  else (evs ++ [Ev.printf "Process not found".toList], some (-1))

/-- Lines 32-86 in the shell process: split the line, run the command, print
the next prompt. -/
def loopBody (st : Shell) (line : CStr) : Except Fault Shell :=
  match splitLine line with
  | .error f => .error f
  | .ok (arr, numElements) =>
    match notAmpersand arr numElements with
    | .error f => .error f
    | .ok false => .ok (st.emit .prompt)
    | .ok true =>
      let (childPid, st) := st.fork
      let st := st.setpgid childPid childPid
      match notAmpersand arr numElements with
      | .error f => .error f
      | .ok false => .ok (st.emit .prompt)
      | .ok true =>
        let st := st.tcsetpgrp (st.pgid childPid)
        let st := st.signalTtou .SIG_IGN
        let st := st.waitpid childPid
        let st := st.tcsetpgrp (st.pgid st.self)
        let st := st.signalTtou .SIG_DFL
        .ok (st.emit .prompt)

/-- Lines 26-30 and 87-91: read a line, drop its last character, leave with 0
on `q`, otherwise run the body and read again. `input` is what `getline` will
deliver, one entry per call. -/
def shellLoop : List CStr → Shell → Except Fault (Int × Shell)
  | [], _ => .error .endOfInput
  | raw :: rest, st =>
    match chop raw with
    | none => .error .storeBeforeLine
    | some line =>
      if line = ['q'] then .ok (0, st)
      else match loopBody st line with
        | .error f => .error f
        | .ok st => shellLoop rest st

/-- The shell after the loop body has run for every line of `lines`, in order;
`none` when a line cannot be chopped, is `q`, or makes the body stop with a
fault. It names the state in which the loop reads the line that follows
`lines`. -/
def bodyRounds : List CStr → Shell → Option Shell
  | [], st => some st
  | raw :: rest, st =>
    match chop raw with
    | none => none
    | some line =>
      if line = ['q'] then none
      else match loopBody st line with
        | .error _ => none
        | .ok st => bodyRounds rest st

/-- The function `main` of ModifiedShell.c. -/
def shellMain (input : List CStr) (st : Shell) : Except Fault (Int × Shell) :=
  let st := st.emit (.signal .SIGCHLD .handler)
  let st := st.emit .prompt
  shellLoop input st

/-- A shell with id 100, in its own group, owning the terminal. -/
def shell0 : Shell :=
  { self := 100, pgid := fun p => p, fg := 100, nextPid := 101, children := [],
    sigttou := .SIG_DFL, trace := [] }

/-! ### The SIGCHLD handler -/

/-- What `handler` acts on: the children that have terminated and have not been
waited for, the signals the process blocks, and what it has printed. -/
structure Reaper where
  /-- Terminated children not yet waited for. -/
  zombies : List Nat
  /-- Blocked signals (the process signal mask). -/
  mask : List Sig
  /-- Text written to standard output. -/
  out : List CStr
  deriving DecidableEq, Repr

/-- The call `sigprocmask(SIG_BLOCK, &newMask, &oldMask)`: the old mask is
handed back and the signals of `newMask` are added. -/
def Reaper.block (st : Reaper) (newMask : List Sig) : List Sig × Reaper :=
  (st.mask, { st with mask := st.mask ++ newMask.filter (fun s => !decide (s ∈ st.mask)) })

/-- The call `waitpid(-1, &status, WNOHANG)`: when a terminated child exists,
one of them (the kernel's `choice`, the first one when `choice` names no
terminated child) is reaped and its id returned; otherwise the call returns at
once with 0 and nothing changes. -/
def Reaper.waitpidNoHang (st : Reaper) (choice : Nat) : Int × Reaper :=
  match st.zombies with
  | [] => (0, st)
  | z :: zs =>
    let c := if choice ∈ z :: zs then choice else z
    ((c : Int), { st with zombies := (z :: zs).erase c })

/-- Lines 94-112, the function `handler`. -/
def handler (choice : Nat) (st : Reaper) : Reaper :=
  let st := { st with out := st.out ++ ["we reached the handler".toList] }
  let newMask : List Sig := []
  let newMask := newMask ++ [Sig.SIGCHLD]
  let (oldMask, st) := st.block newMask
  let (_, st) := st.waitpidNoHang choice
  { st with mask := oldMask }

/-! ## pipingShell.c -/

/-- The delimiter argument `" | "` of every `strtok` call of pipingShell.c. -/
def pipeDelim : CStr := [' ', '|', ' ']

/-- Lines 22-30: `numArgs` is incremented once for every non-NULL `strtok`
result. -/
def countLoop : Nat → Option (CStr × CStr) → Nat → Nat
  | 0, _, numArgs => numArgs
  | _ + 1, none, numArgs => numArgs
  | fuel + 1, some (_, rest), numArgs => countLoop fuel (strtok pipeDelim rest) (numArgs + 1)

/-- Lines 38-44, with `n` the rounds still to run (`numArgs - i`): the current
token is copied into a new block (lines 39-40) and row `i` of `execs` becomes
that block followed by `NULL`. A `NULL` token would be handed to `strcpy`. -/
def buildLoop : Nat → Option (CStr × CStr) → List (List (Option CStr)) →
    Except Fault (List (List (Option CStr)))
  | 0, _, execs => .ok execs
  | _ + 1, none, _ => .error .nullString
  | n + 1, some (tok, rest), execs =>
    match mallocStrcpy tok with
    | .error f => .error f
    | .ok copy => buildLoop n (strtok pipeDelim rest) (execs ++ [[some copy, none]])

/-- Lines 22-44: `numArgs` and the matrix `execs` for a line. -/
def parseStages (line : CStr) : Except Fault (Nat × List (List (Option CStr))) :=
  let numArgs := countLoop (line.length + 1) (strtok pipeDelim line) 0
  match buildLoop numArgs (strtok pipeDelim line) [] with
  | .error f => .error f
  | .ok execs => .ok (numArgs, execs)

/-- What a descriptor refers to. -/
inductive File
  /-- An open file the shell was started with; `n` tells them apart. -/
  | inherited (n : Nat)
  /-- Read end of the pipe created by the `k`-th `pipe` call (from 0). -/
  | pipeRead (k : Nat)
  /-- Write end of the pipe created by the `k`-th `pipe` call (from 0). -/
  | pipeWrite (k : Nat)
  deriving DecidableEq, Repr

/-- Descriptor table of a process: entry `fd` is `none` when `fd` is closed;
descriptors beyond the end are closed. -/
abbrev Table := List (Option File)

/-- What descriptor `fd` refers to. -/
def lookup : Table → Nat → Option File
  | [], _ => none
  | e :: _, 0 => e
  | _ :: t, fd + 1 => lookup t fd

/-- The lowest descriptor that is not open. -/
def lowestFree : Table → Nat
  | [] => 0
  | none :: _ => 0
  | some _ :: t => lowestFree t + 1

/-- Make descriptor `fd` refer to `f`. -/
def install : Table → Nat → File → Table
  | [], 0, f => [some f]
  | [], fd + 1, f => none :: install [] fd f
  | _ :: t, 0, f => some f :: t
  | e :: t, fd + 1, f => e :: install t fd f

/-- Make descriptor `fd` closed. -/
def closeFd : Table → Nat → Table
  | [], _ => []
  | _ :: t, 0 => none :: t
  | e :: t, fd + 1 => e :: closeFd t fd

/-- System calls of the pipeline shell, in program order. `execvp` carries the
descriptor table of the caller at the moment of the call and whether the call
replaced the process image. -/
inductive Call
  | pipe (readFd writeFd : Nat)
  | fork (ret : Nat)
  | close (fd : Nat)
  | dup (fd : Nat) (ret : Int)
  | execvp (file : Option CStr) (argv : List (Option CStr)) (fds : Table) (ok : Bool)
  | wait (ret : Int)
  | exit (code : Int)
  deriving DecidableEq, Repr

/-- A process running `main` of pipingShell.c. -/
structure Proc where
  /-- Descriptor table. -/
  fds : Table
  /-- Children not yet waited for. -/
  children : List Nat
  /-- System calls so far, oldest first; a child starts with its parent's. -/
  trace : List Call
  deriving DecidableEq, Repr

/-- The call `pipe(fds)` creating pipe number `k`: the read end gets the lowest
free descriptor, the write end the next lowest. -/
def Proc.pipe (p : Proc) (k : Nat) : (Nat × Nat) × Proc :=
  let r := lowestFree p.fds
  let t := install p.fds r (.pipeRead k)
  let w := lowestFree t
  let t := install t w (.pipeWrite k)
  ((r, w), { p with fds := t, trace := p.trace ++ [.pipe r w] })

/-- The call `fork()` returning `ret` in this process: the child's id in the
parent, which gains a child; `0` in the child, which has the parent's
descriptors and no children. -/
def Proc.fork (p : Proc) (ret : Nat) : Proc :=
  { p with
      children := if ret = 0 then [] else ret :: p.children
      trace := p.trace ++ [.fork ret] }

/-- The call `close(fd)`; the source ignores its result. -/
def Proc.close (p : Proc) (fd : Nat) : Proc :=
  { p with fds := closeFd p.fds fd, trace := p.trace ++ [.close fd] }

/-- The call `dup(fd)`: the lowest free descriptor becomes a copy of `fd`; when
`fd` is not open the call fails with -1 and the source carries on. -/
def Proc.dup (p : Proc) (fd : Nat) : Proc :=
  match lookup p.fds fd with
  | none => { p with trace := p.trace ++ [.dup fd (-1)] }
  | some f =>
    let n := lowestFree p.fds
    { p with fds := install p.fds n f, trace := p.trace ++ [.dup fd n] }

/-- The call `execvp(execs[i][0], execs[i])`. Row `i` is read from the matrix;
`ok` tells whether the image is replaced. The result is the process after the
call and that flag. -/
def Proc.execvp (p : Proc) (execs : List (List (Option CStr))) (i : Nat) (ok : Bool) :
    Except Fault (Proc × Bool) :=
  match execs.get? i with
  | none => .error (.indexOutOfRange i)
  | some row =>
    .ok ({ p with trace := p.trace ++ [.execvp row.head?.join row p.fds ok] }, ok)

/-- What the kernel decides for one process running `main`: the value each of
the three `fork` calls returns in it, whether each `execvp` replaces the image,
and which terminated child a `wait` reports. -/
structure Oracle where
  /-- Return value of `fork` at line 55. -/
  fork1 : Nat
  /-- Return value of `fork` at line 69. -/
  fork2 : Nat
  /-- Return value of `fork` at line 93. -/
  fork3 : Nat
  /-- Whether `execvp` at line 64 replaces the image. -/
  exec1 : Bool
  /-- Whether `execvp` at line 81 replaces the image. -/
  exec2 : Bool
  /-- Whether `execvp` at line 100 replaces the image. -/
  exec3 : Bool
  /-- The child that `wait` reports among those given. -/
  pick : List Nat → Nat

/-- Line 111, `while(wait(NULL) > 0){}`: with no child left `wait` returns -1;
otherwise it returns, once that child has terminated, the child the kernel
picks (the first one when `pick` names none of them). -/
def waitLoop (pick : List Nat → Nat) : Nat → Proc → Except Fault Proc
  | 0, _ => .error .outOfFuel
  | fuel + 1, p =>
    match p.children with
    | [] => .ok { p with trace := p.trace ++ [.wait (-1)] }
    | c :: cs =>
      let r := if pick (c :: cs) ∈ c :: cs then pick (c :: cs) else c
      let p := { p with children := (c :: cs).erase r, trace := p.trace ++ [.wait r] }
      if (r : Int) > 0 then waitLoop pick fuel p else .ok p

/-- The `wait` calls that report the children `ws`, in that order. -/
def waitCalls (ws : List Nat) : List Call :=
  ws.map (fun (c : Nat) => Call.wait (Int.ofNat c))

/-- Lines 110-113: wait for the children, then `return 0`. -/
def waitAll (o : Oracle) (p : Proc) : Except Fault Proc :=
  match waitLoop o.pick (p.children.length + 1) p with
  | .error f => .error f
  | .ok p => .ok { p with trace := p.trace ++ [.exit 0] }

/-- Lines 92-113. -/
def fromThirdFork (o : Oracle) (execs : List (List (Option CStr))) (sc : Nat × Nat)
    (p : Proc) : Except Fault Proc :=
  let p := p.fork o.fork3
  if o.fork3 = 0 then
    let p := p.close sc.2
    let p := p.close 0
    let p := p.dup sc.1
    match p.execvp execs 2 o.exec3 with
    | .error f => .error f
    | .ok (p, true) => .ok p
    | .ok (p, false) => waitAll o p
  else
    let p := p.close sc.2
    let p := p.close sc.1
    waitAll o p

/-- Lines 68-113. -/
def fromSecondFork (o : Oracle) (execs : List (List (Option CStr))) (fc sc : Nat × Nat)
    (p : Proc) : Except Fault Proc :=
  let p := p.fork o.fork2
  if o.fork2 = 0 then
    let p := p.close 0
    let p := p.close fc.2
    let p := p.dup fc.1
    let p := p.close 1
    let p := p.close sc.1
    let p := p.dup sc.2
    match p.execvp execs 1 o.exec2 with
    | .error f => .error f
    | .ok (p, true) => .ok p
    | .ok (p, false) => fromThirdFork o execs sc p
  else
    let p := p.close fc.1
    let p := p.close fc.2
    fromThirdFork o execs sc p

/-- Lines 47-113: the two pipes, the three forks, the wait. -/
def runPipeline (o : Oracle) (execs : List (List (Option CStr))) (p : Proc) :
    Except Fault Proc :=
  let (firstConnection, p) := p.pipe 0
  let (secondConnection, p) := p.pipe 1
  let p := p.fork o.fork1
  if o.fork1 = 0 then
    let p := p.close 1
    let p := p.close firstConnection.1
    let p := p.dup firstConnection.2
    match p.execvp execs 0 o.exec1 with
    | .error f => .error f
    | .ok (p, true) => .ok p
    | .ok (p, false) => fromSecondFork o execs firstConnection secondConnection p
  else
    fromSecondFork o execs firstConnection secondConnection p

/-- The function `main` of pipingShell.c on the line `raw` that `getline`
delivers. -/
def pipingMain (o : Oracle) (raw : CStr) (p : Proc) : Except Fault Proc :=
  match chop raw with
  | none => .error .storeBeforeLine
  | some line =>
    match parseStages line with
    | .error f => .error f
    | .ok (_, execs) => runPipeline o execs p

/-- A process started with descriptors 0, 1 and 2 open and no children. -/
def proc0 : Proc :=
  { fds := [some (.inherited 0), some (.inherited 1), some (.inherited 2)],
    children := [], trace := [] }

/-- The calls of lines 54-79 in the shell process followed by the prompt of
line 86, as one state change: what `loopBody` does to the shell on a foreground
line. -/
def foregroundSteps (st : Shell) : Shell :=
  let (childPid, st) := st.fork
  let st := st.setpgid childPid childPid
  let st := st.tcsetpgrp (st.pgid childPid)
  let st := st.signalTtou .SIG_IGN
  let st := st.waitpid childPid
  let st := st.tcsetpgrp (st.pgid st.self)
  let st := st.signalTtou .SIG_DFL
  st.emit .prompt

/-- The matrix `execs` that `parseStages` builds for the line `ls | sort | head`. -/
def execs3 : List (List (Option CStr)) :=
  [[some "ls".toList, none], [some "sort".toList, none], [some "head".toList, none]]

/-- The shell itself: the forks return the children 11, 12 and 13. -/
def parentOracle : Oracle :=
  { fork1 := 11, fork2 := 12, fork3 := 13, exec1 := true, exec2 := true, exec3 := true,
    pick := fun _ => 0 }

/-- The child of the first fork; its `execvp` succeeds. -/
def stage0Oracle : Oracle :=
  { fork1 := 0, fork2 := 12, fork3 := 13, exec1 := true, exec2 := true, exec3 := true,
    pick := fun _ => 0 }

/-- The child of the second fork; its `execvp` succeeds. -/
def stage1Oracle : Oracle :=
  { fork1 := 11, fork2 := 0, fork3 := 13, exec1 := true, exec2 := true, exec3 := true,
    pick := fun _ => 0 }

/-- The child of the third fork; its `execvp` succeeds. -/
def stage2Oracle : Oracle :=
  { fork1 := 11, fork2 := 12, fork3 := 0, exec1 := true, exec2 := true, exec3 := true,
    pick := fun _ => 0 }

/-- The child of the first fork when its `execvp` fails; the forks it then makes
itself return 12 and 13. -/
def failedStage0Oracle : Oracle :=
  { fork1 := 0, fork2 := 12, fork3 := 13, exec1 := false, exec2 := true, exec3 := true,
    pick := fun _ => 0 }

/-- The spec's words for the stage split, `sep` being a separator STRING: the
pieces of the text between the occurrences of `sep`, found left to right.
`skip` is the number of characters of the current occurrence still to pass. -/
def splitOnSepAux (sep : CStr) : CStr → Nat → List CStr
  | [], _ => [[]]
  | _ :: cs, skip + 1 => splitOnSepAux sep cs skip
  | c :: cs, 0 =>
    if sep.isPrefixOf (c :: cs) then [] :: splitOnSepAux sep cs (sep.length - 1)
    else match splitOnSepAux sep cs 0 with
      | [] => [[c]]
      | p :: ps => (c :: p) :: ps

/-- The pieces obtained by splitting `s` on the separator string `sep`. -/
def splitOnSep (sep : CStr) (s : CStr) : List CStr :=
  splitOnSepAux sep s 0

/-- The line made of the stage commands `ws` with ` | ` between neighbours. -/
def joinStages : List CStr → CStr
  | [] => []
  | [w] => w
  | w :: w' :: ws => w ++ pipeDelim ++ joinStages (w' :: ws)

/-- The stage commands of a parsed line: `execs[i][0]` for every row. -/
def stageNames (execs : List (List (Option CStr))) : List (Option CStr) :=
  execs.map (fun row => row.head?.join)

/-! ## Properties of the job-control shell -/

theorem mallocStrcpy_fits (t : CStr) (h : t.length + 1 ≤ smallBlock) :
    mallocStrcpy t = .ok t := by
  simp [mallocStrcpy, h]

theorem splitLoop_eq (fuel : Nat) (s : CStr) (arr : List (Option CStr))
    (hfit : ∀ t ∈ tokenLoop [' '] fuel s, t.length + 1 ≤ smallBlock) :
    splitLoop fuel (strtok [' '] s) arr = .ok (arr ++ (tokenLoop [' '] fuel s).map some) := by
  induction fuel generalizing s arr with
  | zero => simp [splitLoop, tokenLoop]
  | succ n ih =>
    cases h : strtok [' '] s with
    | none => simp [splitLoop, tokenLoop, h]
    | some tr =>
      obtain ⟨tok, rest⟩ := tr
      simp only [tokenLoop, h, List.mem_cons, forall_eq_or_imp] at hfit
      simp only [splitLoop, tokenLoop, h, mallocStrcpy_fits tok hfit.1, ih rest _ hfit.2,
        List.map_cons, List.append_assoc, List.singleton_append]

theorem splitLine_eq (line : CStr) (hfit : ∀ t ∈ tokens [' '] line, t.length + 1 ≤ smallBlock) :
    splitLine line =
      .ok ((tokens [' '] line).map some ++ [none], ((tokens [' '] line).length : Int) + 1) := by
  unfold tokens at hfit
  simp [splitLine, splitLoop_eq _ _ _ hfit, tokens]

theorem readArr_last (pre : List CStr) (last : CStr) :
    readArr ((pre ++ [last]).map some ++ [none]) (((pre ++ [last]).length : Int) + 1 - 2)
      = .ok (some last) := by
  have hi : ((pre ++ [last]).length : Int) + 1 - 2 = (pre.length : Int) := by
    simp only [List.length_append, List.length_singleton]; push_cast; ring
  rw [hi]
  have hlt : ¬ ((pre.length : Int) < 0) := by omega
  have hget : ((pre ++ [last]).map some ++ [none]).get? pre.length = some (some last) := by
    rw [List.map_append, List.append_assoc, List.get?_eq_getElem?,
      List.getElem?_append_right (by simp)]
    simp
  simp only [readArr, hlt, if_false, Int.toNat_ofNat, hget]

theorem notAmpersand_last (pre : List CStr) (last : CStr) :
    notAmpersand ((pre ++ [last]).map some ++ [none]) (((pre ++ [last]).length : Int) + 1)
      = .ok (last != ['&']) := by
  simp only [notAmpersand, readArr_last]

/-- The loop body on a line whose tokens fit their blocks and whose last token
is not `&`, written out. -/
theorem loopBody_foreground (st : Shell) (line : CStr) (pre : List CStr) (last : CStr)
    (htok : tokens [' '] line = pre ++ [last]) (hlast : last ≠ ['&'])
    (hfit : ∀ t ∈ tokens [' '] line, t.length + 1 ≤ smallBlock) :
    loopBody st line = .ok (foregroundSteps st) := by
  have hb : (last != ['&']) = true := by simpa using hlast
  simp only [loopBody, splitLine_eq line hfit, htok, notAmpersand_last, hb]
  rfl

/-- The loop body on a line whose tokens fit their blocks and whose last token
is `&`: only the prompt. -/
theorem loopBody_background (st : Shell) (line : CStr) (pre : List CStr)
    (htok : tokens [' '] line = pre ++ [['&']])
    (hfit : ∀ t ∈ tokens [' '] line, t.length + 1 ≤ smallBlock) :
    loopBody st line = .ok (st.emit .prompt) := by
  simp only [loopBody, splitLine_eq line hfit, htok, notAmpersand_last]
  rfl

/-- The loop body on a line without tokens stops at the read of `arr[-1]`. -/
theorem loopBody_empty (st : Shell) (line : CStr) (htok : tokens [' '] line = []) :
    loopBody st line = .error (.indexOutOfRange (-1)) := by
  have hs := splitLine_eq line (by rw [htok]; intro t ht; cases ht)
  rw [htok] at hs
  simp [loopBody, hs, notAmpersand, readArr]

/-- Foreground lines whose tokens fit their blocks: for every command line with
at least one token, every token at most 23 characters long, whose last token is
not `&`, in a shell to which `fork` hands a child id other than its own, the
loop body of the job-control shell performs, in this order, `fork`, `setpgid`
for the child, `tcsetpgrp` to the child's group, `signal(SIGTTOU, SIG_IGN)`,
the blocking `waitpid` on that child, `tcsetpgrp` to the shell's own group,
`signal(SIGTTOU, SIG_DFL)`, and only then prints the prompt; when the prompt is
printed the terminal's foreground group is the shell's own group, which is the
group the shell had before the command. -/
theorem foreground_terminal_handoff_reversed (st : Shell) (line : CStr) (pre : List CStr)
    (last : CStr) (htok : tokens [' '] line = pre ++ [last]) (hlast : last ≠ ['&'])
    (hfit : ∀ t ∈ tokens [' '] line, t.length + 1 ≤ smallBlock)
    (hpid : st.nextPid ≠ st.self) :
    ∃ st' : Shell, loopBody st line = .ok st' ∧
      st'.trace = st.trace ++
        [.fork st.nextPid, .setpgid st.nextPid st.nextPid, .tcsetpgrp 0 st.nextPid,
         .signal .SIGTTOU .SIG_IGN, .waitpid st.nextPid 0,
         .tcsetpgrp 0 (st.pgid st.self), .signal .SIGTTOU .SIG_DFL, .prompt] ∧
      st'.fg = st'.pgid st'.self ∧
      st'.self = st.self ∧
      st'.pgid st'.self = st.pgid st.self := by
  have hne : ¬ st.self = st.nextPid := fun h => hpid h.symm
  refine ⟨foregroundSteps st, loopBody_foreground st line pre last htok hlast hfit,
    ?_, ?_, ?_, ?_⟩
  · simp [foregroundSteps, Shell.emit, Shell.signalTtou, Shell.tcsetpgrp, Shell.waitpid,
      Shell.setpgid, Shell.fork, hne]
  · simp [foregroundSteps, Shell.emit, Shell.signalTtou, Shell.tcsetpgrp, Shell.waitpid,
      Shell.setpgid, Shell.fork]
  · simp [foregroundSteps, Shell.emit, Shell.signalTtou, Shell.tcsetpgrp, Shell.waitpid,
      Shell.setpgid, Shell.fork]
  · simp [foregroundSteps, Shell.emit, Shell.signalTtou, Shell.tcsetpgrp, Shell.waitpid,
      Shell.setpgid, Shell.fork, hne]

/-- The line `ls -l` in a shell with id 100 whose next child is 101. -/
theorem foreground_terminal_handoff_reversed_witness :
    ∃ st' : Shell, loopBody shell0 "ls -l".toList = .ok st' ∧
      st'.trace = shell0.trace ++
        [.fork shell0.nextPid, .setpgid shell0.nextPid shell0.nextPid,
         .tcsetpgrp 0 shell0.nextPid,
         .signal .SIGTTOU .SIG_IGN, .waitpid shell0.nextPid 0,
         .tcsetpgrp 0 (shell0.pgid shell0.self), .signal .SIGTTOU .SIG_DFL, .prompt] ∧
      st'.fg = st'.pgid st'.self ∧
      st'.self = shell0.self ∧
      st'.pgid st'.self = shell0.pgid shell0.self :=
  foreground_terminal_handoff_reversed shell0 "ls -l".toList ["ls".toList] "-l".toList
    (by decide) (by decide) (by decide) (by decide)

/-- C2, the code at a line that ends in `&`: for `sleep 5 &` the loop body only
prints the prompt. Its trace has no `fork`: no child is created, the shell's
set of children is what it was, and the command is never run. -/
theorem background_line_forks_nothing :
    (loopBody shell0 "sleep 5 &".toList).toOption.map
        (fun st => (st.trace, st.children, st.nextPid)) =
      some ([.prompt], [], 101) := by
  decide

/-- C10, the code at a line without tokens: for the empty line and for a line
of two spaces the loop body reads `arr[numElements-2]` with `numElements = 1`,
that is `arr[-1]`, outside the array; there is no rejection before the read. -/
theorem empty_line_reads_before_array :
    loopBody shell0 [] = .error (.indexOutOfRange (-1)) ∧
    loopBody shell0 [' ', ' '] = .error (.indexOutOfRange (-1)) ∧
    splitLine [] = .ok ([none], 1) := by
  refine ⟨loopBody_empty _ _ (by decide), loopBody_empty _ _ (by decide), rfl⟩

theorem shellLoop_append (pre : List CStr) (rest : List CStr) (st st' : Shell)
    (hpre : bodyRounds pre st = some st') :
    shellLoop (pre ++ rest) st = shellLoop rest st' := by
  induction pre generalizing st with
  | nil =>
    simp only [bodyRounds, Option.some.injEq] at hpre
    simp [hpre]
  | cons raw more ih =>
    simp only [bodyRounds] at hpre
    cases hc : chop raw with
    | none => simp [hc] at hpre
    | some line =>
      simp only [hc] at hpre
      by_cases hq : line = ['q']
      · simp [hq] at hpre
      · simp only [hq, if_false] at hpre
        cases hb : loopBody st line with
        | error f => simp [hb] at hpre
        | ok st1 =>
          simp only [hb] at hpre
          simp only [List.cons_append, shellLoop, hc, hq, if_false, hb]
          exact ih st1 hpre

/-- C9: when the loop of the job-control shell reads a line that is `q` once its
last character is dropped, `main` returns 0 in the very state in which the line
was read: whatever lines `pre` were handled before it and whatever lines `rest`
follow it, the trace of the shell is the trace after `pre`, so no fork, exec,
wait or terminal transfer is made for the `q` line or after it. -/
theorem quit_returns_zero_and_spawns_nothing (pre : List CStr) (l : CStr) (rest : List CStr)
    (st st' : Shell) (hq : chop l = some ['q'])
    (hpre : bodyRounds pre ((st.emit (.signal .SIGCHLD .handler)).emit .prompt) = some st') :
    shellMain (pre ++ l :: rest) st = .ok (0, st') := by
  unfold shellMain
  simp only []
  rw [shellLoop_append pre (l :: rest) _ st' hpre]
  simp [shellLoop, hq]

/-- Witness of C9: `ls`, then `q`, then a line that is never read. -/
theorem quit_returns_zero_and_spawns_nothing_witness :
    ∃ st' : Shell,
      st'.trace = [.signal .SIGCHLD .handler, .prompt, .fork 101, .setpgid 101 101,
        .tcsetpgrp 0 101, .signal .SIGTTOU .SIG_IGN, .waitpid 101 0, .tcsetpgrp 0 100,
        .signal .SIGTTOU .SIG_DFL, .prompt] ∧
      shellMain (["ls\n".toList] ++ "q\n".toList :: ["rm x\n".toList]) shell0 = .ok (0, st') :=
  ⟨_, rfl, quit_returns_zero_and_spawns_nothing ["ls\n".toList] "q\n".toList
    ["rm x\n".toList] shell0 _ (by decide) rfl⟩

theorem handler_zombies (choice : Nat) (st : Reaper) :
    (handler choice st).zombies =
      match st.zombies with
      | [] => []
      | z :: zs => (z :: zs).erase (if choice ∈ z :: zs then choice else z) := by
  cases hz : st.zombies with
  | nil => simp [handler, Reaper.block, Reaper.waitpidNoHang, hz]
  | cons z zs => simp [handler, Reaper.block, Reaper.waitpidNoHang, hz]

/-- C3 as stated fails: with the two terminated children 7 and 9, one
invocation of `handler` reaps 7 and child 9 is still terminated and unreaped
when it returns. -/
theorem handler_leaves_a_terminated_child :
    (handler 7 { zombies := [7, 9], mask := [], out := [] }).zombies = [9] ∧
    (handler 7 { zombies := [7, 9], mask := [], out := [] }).zombies ≠ [] := by
  decide

/-- C3 amended: one invocation of `handler` makes one `waitpid(-1, WNOHANG)`
call and so reaps exactly one terminated child when there is one and none
otherwise; the children left are the earlier ones less that child, hence no
terminated child remains exactly when at most one had terminated at the
invocation; the signal mask is what it was before. -/
theorem handler_reaps_exactly_one (choice : Nat) (st : Reaper) :
    (handler choice st).zombies.length = st.zombies.length - 1 ∧
    (handler choice st).zombies.Sublist st.zombies ∧
    ((handler choice st).zombies = [] ↔ st.zombies.length ≤ 1) ∧
    (handler choice st).mask = st.mask := by
  have hmask : (handler choice st).mask = st.mask := by
    cases hz : st.zombies <;> simp [handler, Reaper.block, Reaper.waitpidNoHang, hz]
  have hlen : (handler choice st).zombies.length = st.zombies.length - 1 := by
    rw [handler_zombies]
    cases hz : st.zombies with
    | nil => simp
    | cons z zs =>
      have hmem : (if choice ∈ z :: zs then choice else z) ∈ z :: zs := by
        by_cases hc : choice ∈ z :: zs
        · simp only [hc, if_true]
        · simp only [hc, if_false, List.mem_cons, true_or]
      show ((z :: zs).erase (if choice ∈ z :: zs then choice else z)).length = _
      rw [List.length_erase_of_mem hmem]
  refine ⟨hlen, ?_, ?_, hmask⟩
  · rw [handler_zombies]
    cases hz : st.zombies with
    | nil => simp
    | cons z zs => exact List.erase_sublist _ _
  · rw [← List.length_eq_zero, hlen]
    omega

/-! ## Properties of the pipeline shell -/

theorem lookup_nil (fd : Nat) : lookup [] fd = none := by
  cases fd <;> rfl

theorem lookup_install_nil (i j : Nat) (f : File) :
    lookup (install [] i f) j = if j = i then some f else none := by
  induction i generalizing j with
  | zero => cases j <;> simp [install, lookup, lookup_nil]
  | succ n ih => cases j <;> simp [install, lookup, ih]

theorem lookup_install (t : Table) (i j : Nat) (f : File) :
    lookup (install t i f) j = if j = i then some f else lookup t j := by
  induction t generalizing i j with
  | nil => rw [lookup_install_nil, lookup_nil]
  | cons e t ih =>
    cases i <;> cases j <;> simp [install, lookup, ih]

theorem lookup_closeFd (t : Table) (i j : Nat) :
    lookup (closeFd t i) j = if j = i then none else lookup t j := by
  induction t generalizing i j with
  | nil => simp [closeFd, lookup_nil]
  | cons e t ih =>
    cases i <;> cases j <;> simp [closeFd, lookup, ih]

theorem lookup_lowestFree (t : Table) : lookup t (lowestFree t) = none := by
  induction t with
  | nil => rfl
  | cons e t ih => cases e <;> simp [lowestFree, lookup, ih]

theorem lookup_below_lowestFree (t : Table) (j : Nat) (h : j < lowestFree t) :
    lookup t j ≠ none := by
  induction t generalizing j with
  | nil => simp [lowestFree] at h
  | cons e t ih =>
    cases e with
    | none => simp [lowestFree] at h
    | some f =>
      cases j with
      | zero => simp [lookup]
      | succ n =>
        simp only [lowestFree, Nat.add_lt_add_iff_right] at h
        simpa [lookup] using ih n h

theorem lowestFree_eq (t : Table) (i : Nat) (hi : lookup t i = none)
    (hlow : ∀ j, j < i → lookup t j ≠ none) : lowestFree t = i := by
  rcases Nat.lt_trichotomy (lowestFree t) i with h | h | h
  · exact absurd (lookup_lowestFree t) (hlow _ h)
  · exact h
  · exact absurd hi (lookup_below_lowestFree t i h)

theorem lowestFree_ne_of_open (t : Table) (i : Nat) (f : File) (h : lookup t i = some f) :
    lowestFree t ≠ i := by
  intro he
  have := lookup_lowestFree t
  rw [he, h] at this
  cases this

/-- The two `pipe` calls of lines 49 and 52: the four descriptors are pairwise
distinct, and the table afterwards is the old one with the four ends added. -/
theorem two_pipes (p : Proc) :
    ∃ fc0 fc1 sc0 sc1 : Nat, ∃ t' t : Table,
      p.pipe 0 = ((fc0, fc1), Proc.mk t' p.children (p.trace ++ [.pipe fc0 fc1])) ∧
      (Proc.mk t' p.children (p.trace ++ [.pipe fc0 fc1])).pipe 1 =
        ((sc0, sc1), Proc.mk t p.children (p.trace ++ [.pipe fc0 fc1, .pipe sc0 sc1])) ∧
      fc0 ≠ fc1 ∧ fc0 ≠ sc0 ∧ fc0 ≠ sc1 ∧ fc1 ≠ sc0 ∧ fc1 ≠ sc1 ∧ sc0 ≠ sc1 ∧
      lookup p.fds fc0 = none ∧ lookup p.fds fc1 = none ∧
      lookup p.fds sc0 = none ∧ lookup p.fds sc1 = none ∧
      ∀ j, lookup t j =
        if j = sc1 then some (.pipeWrite 1) else if j = sc0 then some (.pipeRead 1)
        else if j = fc1 then some (.pipeWrite 0) else if j = fc0 then some (.pipeRead 0)
        else lookup p.fds j := by
  -- the four tables in the order they arise
  let t0 := p.fds
  let fc0 := lowestFree t0
  let t1 := install t0 fc0 (.pipeRead 0)
  let fc1 := lowestFree t1
  let t2 := install t1 fc1 (.pipeWrite 0)
  let sc0 := lowestFree t2
  let t3 := install t2 sc0 (.pipeRead 1)
  let sc1 := lowestFree t3
  let t4 := install t3 sc1 (.pipeWrite 1)
  have f0 : lookup t0 fc0 = none := lookup_lowestFree t0
  have f1 : lookup t1 fc1 = none := lookup_lowestFree t1
  have f2 : lookup t2 sc0 = none := lookup_lowestFree t2
  have f3 : lookup t3 sc1 = none := lookup_lowestFree t3
  have l1 : ∀ j, lookup t1 j = if j = fc0 then some (.pipeRead 0) else lookup t0 j :=
    fun j => lookup_install t0 fc0 j _
  have l2 : ∀ j, lookup t2 j = if j = fc1 then some (.pipeWrite 0) else lookup t1 j :=
    fun j => lookup_install t1 fc1 j _
  have l3 : ∀ j, lookup t3 j = if j = sc0 then some (.pipeRead 1) else lookup t2 j :=
    fun j => lookup_install t2 sc0 j _
  have l4 : ∀ j, lookup t4 j = if j = sc1 then some (.pipeWrite 1) else lookup t3 j :=
    fun j => lookup_install t3 sc1 j _
  have n01 : fc0 ≠ fc1 := by
    intro h; have := l1 fc1; rw [f1, ← h] at this; simp at this
  have n02 : fc0 ≠ sc0 := by
    intro h; have := l2 sc0; rw [f2, l1, ← h] at this
    by_cases hh : fc0 = fc1 <;> simp [hh] at this
  have n12 : fc1 ≠ sc0 := by
    intro h; have := l2 sc0; rw [f2, ← h] at this; simp at this
  have n23 : sc0 ≠ sc1 := by
    intro h; have := l3 sc1; rw [f3, ← h] at this; simp at this
  have n13 : fc1 ≠ sc1 := by
    intro h; have := l3 sc1; rw [f3, l2, ← h] at this
    by_cases hh : fc1 = sc0 <;> simp [hh] at this
  have n03 : fc0 ≠ sc1 := by
    intro h; have := l3 sc1; rw [f3, l2, l1, ← h] at this
    simp [n01, n02] at this
  have g1 : lookup t0 fc1 = none := by
    have := l1 fc1; rw [f1] at this; simp [Ne.symm n01] at this; exact this.symm
  have g2 : lookup t0 sc0 = none := by
    have := l2 sc0; rw [f2, l1] at this
    simp [Ne.symm n12, Ne.symm n02] at this; exact this.symm
  have g3 : lookup t0 sc1 = none := by
    have := l3 sc1; rw [f3, l2, l1] at this
    simp [Ne.symm n23, Ne.symm n13, Ne.symm n03] at this; exact this.symm
  refine ⟨fc0, fc1, sc0, sc1, t2, t4, rfl, ?_, n01, n02, n03, n12, n13, n23, f0, g1, g2, g3, ?_⟩
  · simp [Proc.pipe, fc0, fc1, sc0, sc1, t0, t1, t2, t3, t4]
  · intro j
    rw [l4, l3, l2, l1]

/-- With descriptors 0 and 1 open, no `pipe` descriptor is 0 or 1. -/
theorem free_not_std (t : Table) (a b : File) (fd : Nat) (h0 : lookup t 0 = some a)
    (h1 : lookup t 1 = some b) (hfd : lookup t fd = none) : fd ≠ 0 ∧ fd ≠ 1 := by
  constructor
  · intro h; rw [h, h0] at hfd; cases hfd
  · intro h; rw [h, h1] at hfd; cases hfd

theorem fork_extends (p : Proc) (r : Nat) : p.trace <+: (p.fork r).trace :=
  List.prefix_append _ _

theorem close_extends (p : Proc) (fd : Nat) : p.trace <+: (p.close fd).trace :=
  List.prefix_append _ _

theorem dup_extends (p : Proc) (fd : Nat) : p.trace <+: (p.dup fd).trace := by
  unfold Proc.dup
  cases lookup p.fds fd with
  | none => exact List.prefix_append _ _
  | some f => exact List.prefix_append _ _

theorem dup_open (p : Proc) (fd n : Nat) (f : File) (hf : lookup p.fds fd = some f)
    (hn : lowestFree p.fds = n) :
    p.dup fd = { p with fds := install p.fds n f, trace := p.trace ++ [.dup fd n] } := by
  simp [Proc.dup, hf, hn]

theorem dup_mk (t : Table) (c : List Nat) (tr : List Call) (fd n : Nat) (f : File)
    (hf : lookup t fd = some f) (hn : lowestFree t = n) :
    (Proc.mk t c tr).dup fd = Proc.mk (install t n f) c (tr ++ [.dup fd n]) := by
  simp [Proc.dup, hf, hn]

/-- The wait loop ends normally when given more rounds than there are children. -/
theorem waitLoop_ok (pick : List Nat → Nat) (fuel : Nat) (p : Proc)
    (hfuel : p.children.length < fuel) :
    ∃ p', waitLoop pick fuel p = .ok p' ∧ p.trace <+: p'.trace ∧ p'.fds = p.fds := by
  induction fuel generalizing p with
  | zero => omega
  | succ n ih =>
    cases hc : p.children with
    | nil =>
      exact ⟨Proc.mk p.fds p.children (p.trace ++ [.wait (-1)]),
        by simp [waitLoop, hc], List.prefix_append _ _, rfl⟩
    | cons c cs =>
      simp only [waitLoop, hc]
      have hmem : (if pick (c :: cs) ∈ c :: cs then pick (c :: cs) else c) ∈ c :: cs := by
        by_cases hm : pick (c :: cs) ∈ c :: cs
        · simp only [hm, if_true]
        · simp only [hm, if_false, List.mem_cons, true_or]
      generalize (if pick (c :: cs) ∈ c :: cs then pick (c :: cs) else c) = r at hmem ⊢
      by_cases hpos : (r : Int) > 0
      · simp only [hpos, if_true]
        have hlen : ((c :: cs).erase r).length < n := by
          rw [List.length_erase_of_mem hmem]
          rw [hc] at hfuel
          simp only [List.length_cons] at hfuel ⊢
          omega
        obtain ⟨p', h1, h2, h3⟩ :=
          ih (Proc.mk p.fds ((c :: cs).erase r) (p.trace ++ [.wait r])) hlen
        exact ⟨p', h1, (List.prefix_append _ _).trans h2, by simp [h3]⟩
      · simp only [hpos, if_false]
        exact ⟨Proc.mk p.fds ((c :: cs).erase r) (p.trace ++ [.wait r]),
          rfl, List.prefix_append _ _, rfl⟩

theorem waitAll_ok (o : Oracle) (p : Proc) :
    ∃ p', waitAll o p = .ok p' ∧ p.trace <+: p'.trace ∧ p'.fds = p.fds := by
  obtain ⟨p', h1, h2, h3⟩ := waitLoop_ok o.pick (p.children.length + 1) p (by omega)
  exact ⟨Proc.mk p'.fds p'.children (p'.trace ++ [.exit 0]),
    by simp [waitAll, h1], h2.trans (List.prefix_append _ _), by simp [h3]⟩

theorem execvp_row (p : Proc) (execs : List (List (Option CStr))) (i : Nat) (ok : Bool)
    (row : List (Option CStr)) (h : execs.get? i = some row) :
    p.execvp execs i ok =
      .ok (Proc.mk p.fds p.children (p.trace ++ [.execvp row.head?.join row p.fds ok]), ok) := by
  unfold Proc.execvp
  rw [h]

theorem fromThirdFork_ok (o : Oracle) (execs : List (List (Option CStr))) (sc : Nat × Nat)
    (p : Proc) (r2 : List (Option CStr)) (h2 : execs.get? 2 = some r2) :
    ∃ p', fromThirdFork o execs sc p = .ok p' ∧ p.trace <+: p'.trace := by
  unfold fromThirdFork
  by_cases hf : o.fork3 = 0
  · simp only [hf, if_true]
    have hpre : p.trace <+: ((((p.fork 0).close sc.2).close 0).dup sc.1).trace :=
      (((fork_extends p 0).trans (close_extends _ _)).trans (close_extends _ _)).trans
        (dup_extends _ _)
    rw [execvp_row _ execs 2 o.exec3 r2 h2]
    cases o.exec3 with
    | true => exact ⟨_, rfl, hpre.trans (List.prefix_append _ _)⟩
    | false =>
      obtain ⟨p', h1, h3, -⟩ := waitAll_ok o (Proc.mk
        ((((p.fork 0).close sc.2).close 0).dup sc.1).fds
        ((((p.fork 0).close sc.2).close 0).dup sc.1).children
        (((((p.fork 0).close sc.2).close 0).dup sc.1).trace ++
          [.execvp r2.head?.join r2 ((((p.fork 0).close sc.2).close 0).dup sc.1).fds false]))
      exact ⟨p', h1, (hpre.trans (List.prefix_append _ _)).trans h3⟩
  · simp only [hf, if_false]
    obtain ⟨p', h1, h3, -⟩ := waitAll_ok o (((p.fork o.fork3).close sc.2).close sc.1)
    exact ⟨p', h1, (((fork_extends p _).trans (close_extends _ _)).trans
      (close_extends _ _)).trans h3⟩

theorem fromSecondFork_ok (o : Oracle) (execs : List (List (Option CStr))) (fc sc : Nat × Nat)
    (p : Proc) (r1 r2 : List (Option CStr)) (h1 : execs.get? 1 = some r1)
    (h2 : execs.get? 2 = some r2) :
    ∃ p', fromSecondFork o execs fc sc p = .ok p' ∧ p.trace <+: p'.trace := by
  unfold fromSecondFork
  by_cases hf : o.fork2 = 0
  · simp only [hf, if_true]
    have hpre : p.trace <+:
        (((((((p.fork 0).close 0).close fc.2).dup fc.1).close 1).close sc.1).dup sc.2).trace :=
      ((((((fork_extends p 0).trans (close_extends _ _)).trans (close_extends _ _)).trans
        (dup_extends _ _)).trans (close_extends _ _)).trans (close_extends _ _)).trans
          (dup_extends _ _)
    rw [execvp_row _ execs 1 o.exec2 r1 h1]
    cases o.exec2 with
    | true => exact ⟨_, rfl, hpre.trans (List.prefix_append _ _)⟩
    | false =>
      obtain ⟨p', h3, h4⟩ := fromThirdFork_ok o execs sc (Proc.mk
        (((((((p.fork 0).close 0).close fc.2).dup fc.1).close 1).close sc.1).dup sc.2).fds
        (((((((p.fork 0).close 0).close fc.2).dup fc.1).close 1).close sc.1).dup sc.2).children
        ((((((((p.fork 0).close 0).close fc.2).dup fc.1).close 1).close sc.1).dup sc.2).trace ++
          [.execvp r1.head?.join r1
            (((((((p.fork 0).close 0).close fc.2).dup fc.1).close 1).close sc.1).dup sc.2).fds
            false])) r2 h2
      exact ⟨p', h3, (hpre.trans (List.prefix_append _ _)).trans h4⟩
  · simp only [hf, if_false]
    obtain ⟨p', h3, h4⟩ :=
      fromThirdFork_ok o execs sc (((p.fork o.fork2).close fc.1).close fc.2) r2 h2
    exact ⟨p', h3, (((fork_extends p _).trans (close_extends _ _)).trans
      (close_extends _ _)).trans h4⟩

/-- The child of the first `fork` at its `execvp` (line 64): the run so far and
what each of the descriptors 0, 1 and the four pipe descriptors refers to. -/
theorem stage0_at_exec (o : Oracle) (r0 r1 r2 : List (Option CStr))
    (more : List (List (Option CStr))) (p0 : Proc) (a b : File)
    (h0 : lookup p0.fds 0 = some a) (h1 : lookup p0.fds 1 = some b) (hf : o.fork1 = 0) :
    ∃ fc0 fc1 sc0 sc1 : Nat, ∃ tbl : Table, ∃ rest : List Call, ∃ p : Proc,
      runPipeline o (r0 :: r1 :: r2 :: more) p0 = .ok p ∧
      p.trace = p0.trace ++ [.pipe fc0 fc1, .pipe sc0 sc1, .fork 0, .close 1, .close fc0,
        .dup fc1 1, .execvp r0.head?.join r0 tbl o.exec1] ++ rest ∧
      lookup tbl 0 = some a ∧ lookup tbl 1 = some (.pipeWrite 0) ∧
      lookup tbl fc0 = none ∧ lookup tbl fc1 = some (.pipeWrite 0) ∧
      lookup tbl sc0 = some (.pipeRead 1) ∧ lookup tbl sc1 = some (.pipeWrite 1) := by
  obtain ⟨fc0, fc1, sc0, sc1, t2, t4, hp1, hp2, n01, n02, n03, n12, n13, n23, g0, g1, g2, g3, L⟩ :=
    two_pipes p0
  obtain ⟨a0, a1⟩ := free_not_std _ a b fc0 h0 h1 g0
  obtain ⟨b0, b1⟩ := free_not_std _ a b fc1 h0 h1 g1
  obtain ⟨c0, c1⟩ := free_not_std _ a b sc0 h0 h1 g2
  obtain ⟨d0, d1⟩ := free_not_std _ a b sc1 h0 h1 g3
  -- the table when `dup` is called, and the descriptor `dup` returns
  have hsrc : lookup (closeFd (closeFd t4 1) fc0) fc1 = some (.pipeWrite 0) := by
    simp [lookup_closeFd, L, Ne.symm n01, b1, n12, n13]
  have hlow : lowestFree (closeFd (closeFd t4 1) fc0) = 1 := by
    apply lowestFree_eq
    · simp [lookup_closeFd]
    · intro j hj
      have : j = 0 := by omega
      subst this
      simp [lookup_closeFd, L, Ne.symm a0, Ne.symm b0, Ne.symm c0, Ne.symm d0, h0]
  have hdup := dup_open (Proc.mk (closeFd (closeFd t4 1) fc0) []
      (p0.trace ++ [.pipe fc0 fc1, .pipe sc0 sc1] ++ [.fork 0] ++ [.close 1] ++ [.close fc0]))
    fc1 1 (.pipeWrite 0) hsrc hlow
  have hrun : runPipeline o (r0 :: r1 :: r2 :: more) p0 =
      match o.exec1 with
      | true => .ok (Proc.mk (install (closeFd (closeFd t4 1) fc0) 1 (.pipeWrite 0)) []
          (p0.trace ++ [.pipe fc0 fc1, .pipe sc0 sc1, .fork 0, .close 1, .close fc0,
            .dup fc1 1, .execvp r0.head?.join r0
              (install (closeFd (closeFd t4 1) fc0) 1 (.pipeWrite 0)) true]))
      | false => fromSecondFork o (r0 :: r1 :: r2 :: more) (fc0, fc1) (sc0, sc1)
          (Proc.mk (install (closeFd (closeFd t4 1) fc0) 1 (.pipeWrite 0)) []
          (p0.trace ++ [.pipe fc0 fc1, .pipe sc0 sc1, .fork 0, .close 1, .close fc0,
            .dup fc1 1, .execvp r0.head?.join r0
              (install (closeFd (closeFd t4 1) fc0) 1 (.pipeWrite 0)) false])) := by
    simp only [runPipeline, hp1, hp2, hf, if_true, Proc.fork, Proc.close]
    rw [hdup, execvp_row _ (r0 :: r1 :: r2 :: more) 0 o.exec1 r0 rfl]
    cases o.exec1 <;> simp
  have T0 : lookup (install (closeFd (closeFd t4 1) fc0) 1 (.pipeWrite 0)) 0 = some a := by
    simp [lookup_install, lookup_closeFd, L, Ne.symm a0, Ne.symm b0, Ne.symm c0, Ne.symm d0, h0]
  have T1 : lookup (install (closeFd (closeFd t4 1) fc0) 1 (.pipeWrite 0)) 1
      = some (.pipeWrite 0) := by
    simp [lookup_install]
  have T2 : lookup (install (closeFd (closeFd t4 1) fc0) 1 (.pipeWrite 0)) fc0 = none := by
    simp [lookup_install, lookup_closeFd, a1]
  have T3 : lookup (install (closeFd (closeFd t4 1) fc0) 1 (.pipeWrite 0)) fc1
      = some (.pipeWrite 0) := by
    simp [lookup_install, lookup_closeFd, L, b1, Ne.symm n01, n12, n13]
  have T4 : lookup (install (closeFd (closeFd t4 1) fc0) 1 (.pipeWrite 0)) sc0
      = some (.pipeRead 1) := by
    simp [lookup_install, lookup_closeFd, L, c1, Ne.symm n02, n23]
  have T5 : lookup (install (closeFd (closeFd t4 1) fc0) 1 (.pipeWrite 0)) sc1
      = some (.pipeWrite 1) := by
    simp [lookup_install, lookup_closeFd, L, d1, Ne.symm n03]
  cases he : o.exec1 with
  | true =>
    rw [he] at hrun
    exact ⟨fc0, fc1, sc0, sc1, _, [], _, hrun, by simp, T0, T1, T2, T3, T4, T5⟩
  | false =>
    rw [he] at hrun
    simp only [] at hrun
    obtain ⟨p', hp', rest, hrest⟩ := fromSecondFork_ok o (r0 :: r1 :: r2 :: more) (fc0, fc1)
      (sc0, sc1) (Proc.mk (install (closeFd (closeFd t4 1) fc0) 1 (.pipeWrite 0)) []
          (p0.trace ++ [.pipe fc0 fc1, .pipe sc0 sc1, .fork 0, .close 1, .close fc0,
            .dup fc1 1, .execvp r0.head?.join r0
              (install (closeFd (closeFd t4 1) fc0) 1 (.pipeWrite 0)) false])) r1 r2 rfl rfl
    exact ⟨fc0, fc1, sc0, sc1, _, rest, p', hrun.trans hp', hrest.symm, T0, T1, T2, T3, T4, T5⟩

/-- The child of the second `fork` at its `execvp` (line 81). -/
theorem stage1_at_exec (o : Oracle) (r0 r1 r2 : List (Option CStr))
    (more : List (List (Option CStr))) (p0 : Proc) (a b : File)
    (h0 : lookup p0.fds 0 = some a) (h1 : lookup p0.fds 1 = some b) (hf1 : o.fork1 ≠ 0)
    (hf2 : o.fork2 = 0) :
    ∃ fc0 fc1 sc0 sc1 : Nat, ∃ tbl : Table, ∃ rest : List Call, ∃ p : Proc,
      runPipeline o (r0 :: r1 :: r2 :: more) p0 = .ok p ∧
      p.trace = p0.trace ++ [.pipe fc0 fc1, .pipe sc0 sc1, .fork o.fork1, .fork 0, .close 0,
        .close fc1, .dup fc0 0, .close 1, .close sc0, .dup sc1 1,
        .execvp r1.head?.join r1 tbl o.exec2] ++ rest ∧
      lookup tbl 0 = some (.pipeRead 0) ∧ lookup tbl 1 = some (.pipeWrite 1) ∧
      lookup tbl fc0 = some (.pipeRead 0) ∧ lookup tbl fc1 = none ∧
      lookup tbl sc0 = none ∧ lookup tbl sc1 = some (.pipeWrite 1) := by
  obtain ⟨fc0, fc1, sc0, sc1, t2, t4, hp1, hp2, n01, n02, n03, n12, n13, n23, g0, g1, g2, g3, L⟩ :=
    two_pipes p0
  obtain ⟨a0, a1⟩ := free_not_std _ a b fc0 h0 h1 g0
  obtain ⟨b0, b1⟩ := free_not_std _ a b fc1 h0 h1 g1
  obtain ⟨c0, c1⟩ := free_not_std _ a b sc0 h0 h1 g2
  obtain ⟨d0, d1⟩ := free_not_std _ a b sc1 h0 h1 g3
  have hsrcA : lookup (closeFd (closeFd t4 0) fc1) fc0 = some (.pipeRead 0) := by
    simp [lookup_closeFd, L, n01, a0, n02, n03]
  have hlowA : lowestFree (closeFd (closeFd t4 0) fc1) = 0 := by
    apply lowestFree_eq
    · simp [lookup_closeFd, Ne.symm b0]
    · intro j hj; omega
  have hsrcB : lookup (closeFd (closeFd
      (install (closeFd (closeFd t4 0) fc1) 0 (.pipeRead 0)) 1) sc0) sc1
        = some (.pipeWrite 1) := by
    simp [lookup_closeFd, lookup_install, L, Ne.symm n23, d1, d0, Ne.symm n13]
  have hlowB : lowestFree (closeFd (closeFd
      (install (closeFd (closeFd t4 0) fc1) 0 (.pipeRead 0)) 1) sc0) = 1 := by
    apply lowestFree_eq
    · simp [lookup_closeFd]
    · intro j hj
      have : j = 0 := by omega
      subst this
      simp [lookup_closeFd, lookup_install, Ne.symm c0]
  have hrun : runPipeline o (r0 :: r1 :: r2 :: more) p0 =
      match o.exec2 with
      | true => .ok (Proc.mk (install (closeFd (closeFd
            (install (closeFd (closeFd t4 0) fc1) 0 (.pipeRead 0)) 1) sc0) 1 (.pipeWrite 1)) []
          (p0.trace ++ [.pipe fc0 fc1, .pipe sc0 sc1, .fork o.fork1, .fork 0, .close 0,
            .close fc1, .dup fc0 0, .close 1, .close sc0, .dup sc1 1,
            .execvp r1.head?.join r1 (install (closeFd (closeFd
              (install (closeFd (closeFd t4 0) fc1) 0 (.pipeRead 0)) 1) sc0) 1 (.pipeWrite 1))
              true]))
      | false => fromThirdFork o (r0 :: r1 :: r2 :: more) (sc0, sc1)
          (Proc.mk (install (closeFd (closeFd
            (install (closeFd (closeFd t4 0) fc1) 0 (.pipeRead 0)) 1) sc0) 1 (.pipeWrite 1)) []
          (p0.trace ++ [.pipe fc0 fc1, .pipe sc0 sc1, .fork o.fork1, .fork 0, .close 0,
            .close fc1, .dup fc0 0, .close 1, .close sc0, .dup sc1 1,
            .execvp r1.head?.join r1 (install (closeFd (closeFd
              (install (closeFd (closeFd t4 0) fc1) 0 (.pipeRead 0)) 1) sc0) 1 (.pipeWrite 1))
              false])) := by
    simp only [runPipeline, hp1, hp2, hf1, if_false, fromSecondFork, hf2, if_true, Proc.fork,
      Proc.close]
    rw [dup_mk _ _ _ fc0 0 _ hsrcA hlowA]
    simp only []
    rw [dup_mk _ _ _ sc1 1 _ hsrcB hlowB, execvp_row _ (r0 :: r1 :: r2 :: more) 1 o.exec2 r1 rfl]
    cases o.exec2 <;> simp
  have T0 : lookup (install (closeFd (closeFd
      (install (closeFd (closeFd t4 0) fc1) 0 (.pipeRead 0)) 1) sc0) 1 (.pipeWrite 1)) 0
        = some (.pipeRead 0) := by
    simp [lookup_install, lookup_closeFd, Ne.symm c0]
  have T1 : lookup (install (closeFd (closeFd
      (install (closeFd (closeFd t4 0) fc1) 0 (.pipeRead 0)) 1) sc0) 1 (.pipeWrite 1)) 1
        = some (.pipeWrite 1) := by
    simp [lookup_install]
  have T2 : lookup (install (closeFd (closeFd
      (install (closeFd (closeFd t4 0) fc1) 0 (.pipeRead 0)) 1) sc0) 1 (.pipeWrite 1)) fc0
        = some (.pipeRead 0) := by
    simp [lookup_install, lookup_closeFd, L, a0, a1, n01, n02, n03]
  have T3 : lookup (install (closeFd (closeFd
      (install (closeFd (closeFd t4 0) fc1) 0 (.pipeRead 0)) 1) sc0) 1 (.pipeWrite 1)) fc1
        = none := by
    simp [lookup_install, lookup_closeFd, b0, b1, n12]
  have T4 : lookup (install (closeFd (closeFd
      (install (closeFd (closeFd t4 0) fc1) 0 (.pipeRead 0)) 1) sc0) 1 (.pipeWrite 1)) sc0
        = none := by
    simp [lookup_install, lookup_closeFd, c1]
  have T5 : lookup (install (closeFd (closeFd
      (install (closeFd (closeFd t4 0) fc1) 0 (.pipeRead 0)) 1) sc0) 1 (.pipeWrite 1)) sc1
        = some (.pipeWrite 1) := by
    simp [lookup_install, lookup_closeFd, L, d0, d1, Ne.symm n23, Ne.symm n13]
  cases he : o.exec2 with
  | true =>
    rw [he] at hrun
    exact ⟨fc0, fc1, sc0, sc1, _, [], _, hrun, by simp, T0, T1, T2, T3, T4, T5⟩
  | false =>
    rw [he] at hrun
    simp only [] at hrun
    obtain ⟨p', hp', rest, hrest⟩ := fromThirdFork_ok o (r0 :: r1 :: r2 :: more)
      (sc0, sc1) (Proc.mk (install (closeFd (closeFd
            (install (closeFd (closeFd t4 0) fc1) 0 (.pipeRead 0)) 1) sc0) 1 (.pipeWrite 1)) []
          (p0.trace ++ [.pipe fc0 fc1, .pipe sc0 sc1, .fork o.fork1, .fork 0, .close 0,
            .close fc1, .dup fc0 0, .close 1, .close sc0, .dup sc1 1,
            .execvp r1.head?.join r1 (install (closeFd (closeFd
              (install (closeFd (closeFd t4 0) fc1) 0 (.pipeRead 0)) 1) sc0) 1 (.pipeWrite 1))
              false])) r2 rfl
    exact ⟨fc0, fc1, sc0, sc1, _, rest, p', hrun.trans hp', hrest.symm, T0, T1, T2, T3, T4, T5⟩

/-- The child of the third `fork` at its `execvp` (line 100). -/
theorem stage2_at_exec (o : Oracle) (r0 r1 r2 : List (Option CStr))
    (more : List (List (Option CStr))) (p0 : Proc) (a b : File)
    (h0 : lookup p0.fds 0 = some a) (h1 : lookup p0.fds 1 = some b) (hf1 : o.fork1 ≠ 0)
    (hf2 : o.fork2 ≠ 0) (hf3 : o.fork3 = 0) :
    ∃ fc0 fc1 sc0 sc1 : Nat, ∃ tbl : Table, ∃ rest : List Call, ∃ p : Proc,
      runPipeline o (r0 :: r1 :: r2 :: more) p0 = .ok p ∧
      p.trace = p0.trace ++ [.pipe fc0 fc1, .pipe sc0 sc1, .fork o.fork1, .fork o.fork2,
        .close fc0, .close fc1, .fork 0, .close sc1, .close 0, .dup sc0 0,
        .execvp r2.head?.join r2 tbl o.exec3] ++ rest ∧
      lookup tbl 0 = some (.pipeRead 1) ∧ lookup tbl 1 = some b ∧
      lookup tbl fc0 = none ∧ lookup tbl fc1 = none ∧
      lookup tbl sc0 = some (.pipeRead 1) ∧ lookup tbl sc1 = none := by
  obtain ⟨fc0, fc1, sc0, sc1, t2, t4, hp1, hp2, n01, n02, n03, n12, n13, n23, g0, g1, g2, g3, L⟩ :=
    two_pipes p0
  obtain ⟨a0, a1⟩ := free_not_std _ a b fc0 h0 h1 g0
  obtain ⟨b0, b1⟩ := free_not_std _ a b fc1 h0 h1 g1
  obtain ⟨c0, c1⟩ := free_not_std _ a b sc0 h0 h1 g2
  obtain ⟨d0, d1⟩ := free_not_std _ a b sc1 h0 h1 g3
  have hsrc : lookup (closeFd (closeFd (closeFd (closeFd t4 fc0) fc1) sc1) 0) sc0
      = some (.pipeRead 1) := by
    simp [lookup_closeFd, L, c0, n23, Ne.symm n12, Ne.symm n02]
  have hlow : lowestFree (closeFd (closeFd (closeFd (closeFd t4 fc0) fc1) sc1) 0) = 0 := by
    apply lowestFree_eq
    · simp [lookup_closeFd]
    · intro j hj; omega
  have hrun : runPipeline o (r0 :: r1 :: r2 :: more) p0 =
      match o.exec3 with
      | true => .ok (Proc.mk (install (closeFd (closeFd (closeFd (closeFd t4 fc0) fc1) sc1) 0)
            0 (.pipeRead 1)) []
          (p0.trace ++ [.pipe fc0 fc1, .pipe sc0 sc1, .fork o.fork1, .fork o.fork2,
            .close fc0, .close fc1, .fork 0, .close sc1, .close 0, .dup sc0 0,
            .execvp r2.head?.join r2
              (install (closeFd (closeFd (closeFd (closeFd t4 fc0) fc1) sc1) 0) 0 (.pipeRead 1))
              true]))
      | false => waitAll o
          (Proc.mk (install (closeFd (closeFd (closeFd (closeFd t4 fc0) fc1) sc1) 0)
            0 (.pipeRead 1)) []
          (p0.trace ++ [.pipe fc0 fc1, .pipe sc0 sc1, .fork o.fork1, .fork o.fork2,
            .close fc0, .close fc1, .fork 0, .close sc1, .close 0, .dup sc0 0,
            .execvp r2.head?.join r2
              (install (closeFd (closeFd (closeFd (closeFd t4 fc0) fc1) sc1) 0) 0 (.pipeRead 1))
              false])) := by
    simp only [runPipeline, hp1, hp2, hf1, if_false, fromSecondFork, hf2, fromThirdFork, hf3,
      if_true, Proc.fork, Proc.close]
    rw [dup_mk _ _ _ sc0 0 _ hsrc hlow, execvp_row _ (r0 :: r1 :: r2 :: more) 2 o.exec3 r2 rfl]
    cases o.exec3 <;> simp
  have T0 : lookup (install (closeFd (closeFd (closeFd (closeFd t4 fc0) fc1) sc1) 0)
      0 (.pipeRead 1)) 0 = some (.pipeRead 1) := by
    simp [lookup_install]
  have T1 : lookup (install (closeFd (closeFd (closeFd (closeFd t4 fc0) fc1) sc1) 0)
      0 (.pipeRead 1)) 1 = some b := by
    simp [lookup_install, lookup_closeFd, L, Ne.symm a1, Ne.symm b1, Ne.symm c1, Ne.symm d1, h1]
  have T2 : lookup (install (closeFd (closeFd (closeFd (closeFd t4 fc0) fc1) sc1) 0)
      0 (.pipeRead 1)) fc0 = none := by
    simp [lookup_install, lookup_closeFd, a0, n01, n03]
  have T3 : lookup (install (closeFd (closeFd (closeFd (closeFd t4 fc0) fc1) sc1) 0)
      0 (.pipeRead 1)) fc1 = none := by
    simp [lookup_install, lookup_closeFd, b0, n13]
  have T4 : lookup (install (closeFd (closeFd (closeFd (closeFd t4 fc0) fc1) sc1) 0)
      0 (.pipeRead 1)) sc0 = some (.pipeRead 1) := by
    simp [lookup_install, lookup_closeFd, L, c0, n23, Ne.symm n12, Ne.symm n02]
  have T5 : lookup (install (closeFd (closeFd (closeFd (closeFd t4 fc0) fc1) sc1) 0)
      0 (.pipeRead 1)) sc1 = none := by
    simp [lookup_install, lookup_closeFd, d0]
  cases he : o.exec3 with
  | true =>
    rw [he] at hrun
    exact ⟨fc0, fc1, sc0, sc1, _, [], _, hrun, by simp, T0, T1, T2, T3, T4, T5⟩
  | false =>
    rw [he] at hrun
    simp only [] at hrun
    obtain ⟨p', hp', ⟨rest, hrest⟩, -⟩ := waitAll_ok o
      (Proc.mk (install (closeFd (closeFd (closeFd (closeFd t4 fc0) fc1) sc1) 0)
            0 (.pipeRead 1)) []
          (p0.trace ++ [.pipe fc0 fc1, .pipe sc0 sc1, .fork o.fork1, .fork o.fork2,
            .close fc0, .close fc1, .fork 0, .close sc1, .close 0, .dup sc0 0,
            .execvp r2.head?.join r2
              (install (closeFd (closeFd (closeFd (closeFd t4 fc0) fc1) sc1) 0) 0 (.pipeRead 1))
              false]))
    exact ⟨fc0, fc1, sc0, sc1, _, rest, p', hrun.trans hp', hrest.symm, T0, T1, T2, T3, T4, T5⟩

/-- The wait loop reaps every child, in the order the kernel reports them, and
leaves on the `wait` that finds none. -/
theorem waitLoop_drains (pick : List Nat → Nat) (fuel : Nat) (p : Proc)
    (hfuel : p.children.length < fuel) (hpos : ∀ c ∈ p.children, 0 < c) :
    ∃ ws : List Nat, ws.Perm p.children ∧
      waitLoop pick fuel p = .ok (Proc.mk p.fds []
        (p.trace ++ waitCalls ws ++ [.wait (-1)])) := by
  induction fuel generalizing p with
  | zero => omega
  | succ n ih =>
    cases hc : p.children with
    | nil => exact ⟨[], List.Perm.refl _, by simp [waitLoop, hc, waitCalls]⟩
    | cons c cs =>
      simp only [waitLoop, hc]
      have hmem : (if pick (c :: cs) ∈ c :: cs then pick (c :: cs) else c) ∈ c :: cs := by
        by_cases hm : pick (c :: cs) ∈ c :: cs
        · simp only [hm, if_true]
        · simp only [hm, if_false, List.mem_cons, true_or]
      generalize (if pick (c :: cs) ∈ c :: cs then pick (c :: cs) else c) = r at hmem ⊢
      have hr : 0 < r := hpos r (by rw [hc]; exact hmem)
      have hrpos : (r : Int) > 0 := by exact_mod_cast hr
      simp only [hrpos, if_true]
      have hlen : ((c :: cs).erase r).length < n := by
        rw [List.length_erase_of_mem hmem]
        rw [hc] at hfuel
        simp only [List.length_cons] at hfuel ⊢
        omega
      obtain ⟨ws, hperm, hrun⟩ :=
        ih (Proc.mk p.fds ((c :: cs).erase r) (p.trace ++ [.wait r])) hlen
          (fun x hx => hpos x (by rw [hc]; exact List.mem_of_mem_erase hx))
      refine ⟨r :: ws, ?_, ?_⟩
      · exact (List.Perm.cons r hperm).trans (List.perm_cons_erase hmem).symm
      · rw [hrun]
        simp [waitCalls]

/-- C6: on the parent's path of the pipeline shell (each of the three forks
returns a non-zero child id), `main` returns 0 after these calls, in this
order: the two `pipe` calls, `fork`, `fork`, `close` of both ends of
`firstConnection`, `fork`, `close` of both ends of `secondConnection`, one
`wait` per child (the three new ones and any the process already had, in the
order they terminate), and the `wait` that finds no child. At the return no
child is left to wait for, and none of the four pipe descriptors is open. -/
theorem parent_closes_pipes_and_waits (o : Oracle) (execs : List (List (Option CStr)))
    (p0 : Proc) (hpos : ∀ c ∈ p0.children, 0 < c) (h1 : o.fork1 ≠ 0) (h2 : o.fork2 ≠ 0)
    (h3 : o.fork3 ≠ 0) :
    ∃ fc0 fc1 sc0 sc1 : Nat, ∃ ws : List Nat, ∃ p : Proc,
      runPipeline o execs p0 = .ok p ∧
      p.trace = p0.trace ++ [.pipe fc0 fc1, .pipe sc0 sc1, .fork o.fork1, .fork o.fork2,
        .close fc0, .close fc1, .fork o.fork3, .close sc1, .close sc0] ++
        waitCalls ws ++ [.wait (-1), .exit 0] ∧
      ws.Perm (o.fork3 :: o.fork2 :: o.fork1 :: p0.children) ∧
      p.children = [] ∧
      lookup p.fds fc0 = none ∧ lookup p.fds fc1 = none ∧
      lookup p.fds sc0 = none ∧ lookup p.fds sc1 = none := by
  obtain ⟨fc0, fc1, sc0, sc1, t2, t4, hp1, hp2, n01, n02, n03, n12, n13, n23, g0, g1, g2, g3, L⟩ :=
    two_pipes p0
  have hpos' : ∀ c ∈ o.fork3 :: o.fork2 :: o.fork1 :: p0.children, 0 < c := by
    intro c hc
    simp only [List.mem_cons] at hc
    rcases hc with rfl | rfl | rfl | hc
    · omega
    · omega
    · omega
    · exact hpos c hc
  obtain ⟨ws, hperm, hrun⟩ := waitLoop_drains o.pick
    ((o.fork3 :: o.fork2 :: o.fork1 :: p0.children).length + 1)
    (Proc.mk (closeFd (closeFd (closeFd (closeFd t4 fc0) fc1) sc1) sc0)
      (o.fork3 :: o.fork2 :: o.fork1 :: p0.children)
      (p0.trace ++ [.pipe fc0 fc1, .pipe sc0 sc1] ++ [.fork o.fork1] ++ [.fork o.fork2] ++
        [.close fc0] ++ [.close fc1] ++ [.fork o.fork3] ++ [.close sc1] ++ [.close sc0]))
    (by simp) hpos'
  refine ⟨fc0, fc1, sc0, sc1, ws,
    Proc.mk (closeFd (closeFd (closeFd (closeFd t4 fc0) fc1) sc1) sc0) []
      (p0.trace ++ [.pipe fc0 fc1, .pipe sc0 sc1] ++ [.fork o.fork1] ++ [.fork o.fork2] ++
        [.close fc0] ++ [.close fc1] ++ [.fork o.fork3] ++ [.close sc1] ++ [.close sc0] ++
        waitCalls ws ++ [.wait (-1)] ++ [.exit 0]),
    ?_, ?_, hperm, ?_, ?_, ?_, ?_, ?_⟩
  · simp only [runPipeline, hp1, hp2, h1, h2, h3, if_false, fromSecondFork, fromThirdFork,
      waitAll, Proc.fork, Proc.close]
    rw [hrun]
  · simp
  · rfl
  · simp [lookup_closeFd]
  · simp [lookup_closeFd]
  · simp [lookup_closeFd]
  · simp [lookup_closeFd]

/-- Witness of C6: the shell with descriptors 0, 1, 2 and the children 11, 12, 13. -/
theorem parent_closes_pipes_and_waits_witness :
    ∃ fc0 fc1 sc0 sc1 : Nat, ∃ ws : List Nat, ∃ p : Proc,
      runPipeline parentOracle execs3 proc0 = .ok p ∧
      p.trace = proc0.trace ++ [.pipe fc0 fc1, .pipe sc0 sc1, .fork parentOracle.fork1,
        .fork parentOracle.fork2, .close fc0, .close fc1, .fork parentOracle.fork3,
        .close sc1, .close sc0] ++ waitCalls ws ++ [.wait (-1), .exit 0] ∧
      ws.Perm (parentOracle.fork3 :: parentOracle.fork2 :: parentOracle.fork1 ::
        proc0.children) ∧
      p.children = [] ∧
      lookup p.fds fc0 = none ∧ lookup p.fds fc1 = none ∧
      lookup p.fds sc0 = none ∧ lookup p.fds sc1 = none :=
  parent_closes_pipes_and_waits parentOracle execs3 proc0 (by decide) (by decide) (by decide)
    (by decide)

/-- C4: started with descriptors 0 and 1 open (referring to `a` and `b`), each of
the three children of the pipeline shell reaches its `execvp` after exactly the
`close` and `dup` calls of its branch, every `dup` returning the descriptor
just closed, and at that call: in stage 0 (the first fork returned 0)
descriptor 1 is the write end of the first pipe and descriptor 0 is still `a`;
in stage 1 descriptor 0 is the read end of the first pipe and descriptor 1 the
write end of the second; in stage 2 descriptor 0 is the read end of the second
pipe and descriptor 1 is still `b`. -/
theorem stages_wired_at_exec (oA oB oC : Oracle) (r0 r1 r2 : List (Option CStr))
    (more : List (List (Option CStr))) (p0 : Proc) (a b : File)
    (h0 : lookup p0.fds 0 = some a) (h1 : lookup p0.fds 1 = some b)
    (hA : oA.fork1 = 0)
    (hB1 : oB.fork1 ≠ 0) (hB2 : oB.fork2 = 0)
    (hC1 : oC.fork1 ≠ 0) (hC2 : oC.fork2 ≠ 0) (hC3 : oC.fork3 = 0) :
    (∃ fc0 fc1 sc0 sc1 : Nat, ∃ tbl : Table, ∃ rest : List Call, ∃ p : Proc,
      runPipeline oA (r0 :: r1 :: r2 :: more) p0 = .ok p ∧
      p.trace = p0.trace ++ [.pipe fc0 fc1, .pipe sc0 sc1, .fork 0, .close 1, .close fc0,
        .dup fc1 1, .execvp r0.head?.join r0 tbl oA.exec1] ++ rest ∧
      lookup tbl 0 = some a ∧ lookup tbl 1 = some (.pipeWrite 0)) ∧
    (∃ fc0 fc1 sc0 sc1 : Nat, ∃ tbl : Table, ∃ rest : List Call, ∃ p : Proc,
      runPipeline oB (r0 :: r1 :: r2 :: more) p0 = .ok p ∧
      p.trace = p0.trace ++ [.pipe fc0 fc1, .pipe sc0 sc1, .fork oB.fork1, .fork 0, .close 0,
        .close fc1, .dup fc0 0, .close 1, .close sc0, .dup sc1 1,
        .execvp r1.head?.join r1 tbl oB.exec2] ++ rest ∧
      lookup tbl 0 = some (.pipeRead 0) ∧ lookup tbl 1 = some (.pipeWrite 1)) ∧
    (∃ fc0 fc1 sc0 sc1 : Nat, ∃ tbl : Table, ∃ rest : List Call, ∃ p : Proc,
      runPipeline oC (r0 :: r1 :: r2 :: more) p0 = .ok p ∧
      p.trace = p0.trace ++ [.pipe fc0 fc1, .pipe sc0 sc1, .fork oC.fork1, .fork oC.fork2,
        .close fc0, .close fc1, .fork 0, .close sc1, .close 0, .dup sc0 0,
        .execvp r2.head?.join r2 tbl oC.exec3] ++ rest ∧
      lookup tbl 0 = some (.pipeRead 1) ∧ lookup tbl 1 = some b) := by
  refine ⟨?_, ?_, ?_⟩
  · obtain ⟨fc0, fc1, sc0, sc1, tbl, rest, p, hr, ht, T0, T1, -⟩ :=
      stage0_at_exec oA r0 r1 r2 more p0 a b h0 h1 hA
    exact ⟨fc0, fc1, sc0, sc1, tbl, rest, p, hr, ht, T0, T1⟩
  · obtain ⟨fc0, fc1, sc0, sc1, tbl, rest, p, hr, ht, T0, T1, -⟩ :=
      stage1_at_exec oB r0 r1 r2 more p0 a b h0 h1 hB1 hB2
    exact ⟨fc0, fc1, sc0, sc1, tbl, rest, p, hr, ht, T0, T1⟩
  · obtain ⟨fc0, fc1, sc0, sc1, tbl, rest, p, hr, ht, T0, T1, -⟩ :=
      stage2_at_exec oC r0 r1 r2 more p0 a b h0 h1 hC1 hC2 hC3
    exact ⟨fc0, fc1, sc0, sc1, tbl, rest, p, hr, ht, T0, T1⟩

/-- Witness of C4: the line `ls | sort | head` in a shell started with
descriptors 0, 1 and 2. -/
theorem stages_wired_at_exec_witness :
    (∃ fc0 fc1 sc0 sc1 : Nat, ∃ tbl : Table, ∃ rest : List Call, ∃ p : Proc,
      runPipeline stage0Oracle ([some "ls".toList, none] :: [some "sort".toList, none] ::
        [some "head".toList, none] :: []) proc0 = .ok p ∧
      p.trace = proc0.trace ++ [.pipe fc0 fc1, .pipe sc0 sc1, .fork 0, .close 1, .close fc0,
        .dup fc1 1, .execvp [some "ls".toList, none].head?.join [some "ls".toList, none] tbl
          stage0Oracle.exec1] ++ rest ∧
      lookup tbl 0 = some (.inherited 0) ∧ lookup tbl 1 = some (.pipeWrite 0)) ∧
    (∃ fc0 fc1 sc0 sc1 : Nat, ∃ tbl : Table, ∃ rest : List Call, ∃ p : Proc,
      runPipeline stage1Oracle ([some "ls".toList, none] :: [some "sort".toList, none] ::
        [some "head".toList, none] :: []) proc0 = .ok p ∧
      p.trace = proc0.trace ++ [.pipe fc0 fc1, .pipe sc0 sc1, .fork stage1Oracle.fork1,
        .fork 0, .close 0, .close fc1, .dup fc0 0, .close 1, .close sc0, .dup sc1 1,
        .execvp [some "sort".toList, none].head?.join [some "sort".toList, none] tbl
          stage1Oracle.exec2] ++ rest ∧
      lookup tbl 0 = some (.pipeRead 0) ∧ lookup tbl 1 = some (.pipeWrite 1)) ∧
    (∃ fc0 fc1 sc0 sc1 : Nat, ∃ tbl : Table, ∃ rest : List Call, ∃ p : Proc,
      runPipeline stage2Oracle ([some "ls".toList, none] :: [some "sort".toList, none] ::
        [some "head".toList, none] :: []) proc0 = .ok p ∧
      p.trace = proc0.trace ++ [.pipe fc0 fc1, .pipe sc0 sc1, .fork stage2Oracle.fork1,
        .fork stage2Oracle.fork2, .close fc0, .close fc1, .fork 0, .close sc1, .close 0,
        .dup sc0 0,
        .execvp [some "head".toList, none].head?.join [some "head".toList, none] tbl
          stage2Oracle.exec3] ++ rest ∧
      lookup tbl 0 = some (.pipeRead 1) ∧ lookup tbl 1 = some (.inherited 1)) :=
  stages_wired_at_exec stage0Oracle stage1Oracle stage2Oracle [some "ls".toList, none]
    [some "sort".toList, none] [some "head".toList, none] [] proc0 (.inherited 0) (.inherited 1)
    (by decide) (by decide) (by decide) (by decide) (by decide) (by decide) (by decide)
    (by decide)

/-- C5 as stated fails: for the line `ls | sort | head` in a shell started with
descriptors 0, 1, 2 the pipes are `firstConnection = {3, 4}` and
`secondConnection = {5, 6}`, and at its `execvp` the third child still has
descriptor 5 (`secondConnection[0]`) open, the second child 3 and 6, the first
child 4, 5 and 6. -/
theorem children_keep_pipe_descriptors_open :
    (runPipeline stage2Oracle execs3 proc0).toOption.map Proc.trace =
      some [.pipe 3 4, .pipe 5 6, .fork 11, .fork 12, .close 3, .close 4, .fork 0, .close 6,
        .close 0, .dup 5 0,
        .execvp (some "head".toList) [some "head".toList, none]
          [some (.pipeRead 1), some (.inherited 1), some (.inherited 2), none, none,
           some (.pipeRead 1), none] true] ∧
    lookup [some (.pipeRead 1), some (.inherited 1), some (.inherited 2), none, none,
           some (.pipeRead 1), none] 5 ≠ none ∧
    (runPipeline stage1Oracle execs3 proc0).toOption.map Proc.trace =
      some [.pipe 3 4, .pipe 5 6, .fork 11, .fork 0, .close 0, .close 4, .dup 3 0, .close 1,
        .close 5, .dup 6 1,
        .execvp (some "sort".toList) [some "sort".toList, none]
          [some (.pipeRead 0), some (.pipeWrite 1), some (.inherited 2), some (.pipeRead 0),
           none, none, some (.pipeWrite 1)] true] ∧
    (runPipeline stage0Oracle execs3 proc0).toOption.map Proc.trace =
      some [.pipe 3 4, .pipe 5 6, .fork 0, .close 1, .close 3, .dup 4 1,
        .execvp (some "ls".toList) [some "ls".toList, none]
          [some (.inherited 0), some (.pipeWrite 0), some (.inherited 2), none,
           some (.pipeWrite 0), some (.pipeRead 1), some (.pipeWrite 1)] true] := by
  decide

/-- C5 amended: before its `execvp` each child of the pipeline shell closes the
end it does not use of every pipe it redirects, and nothing else. At the call,
in stage 0 `firstConnection[0]` is closed and `firstConnection[1]`, the
descriptor it duplicated, is still open; in stage 1 `firstConnection[1]` and
`secondConnection[0]` are closed and the duplicated `firstConnection[0]` and
`secondConnection[1]` are still open; in stage 2 `secondConnection[1]` is
closed, both ends of `firstConnection` are closed (the parent closed them
before the third fork), and the duplicated `secondConnection[0]` is still
open. -/
theorem children_close_the_opposite_ends (oA oB oC : Oracle) (r0 r1 r2 : List (Option CStr))
    (more : List (List (Option CStr))) (p0 : Proc) (a b : File)
    (h0 : lookup p0.fds 0 = some a) (h1 : lookup p0.fds 1 = some b)
    (hA : oA.fork1 = 0)
    (hB1 : oB.fork1 ≠ 0) (hB2 : oB.fork2 = 0)
    (hC1 : oC.fork1 ≠ 0) (hC2 : oC.fork2 ≠ 0) (hC3 : oC.fork3 = 0) :
    (∃ fc0 fc1 sc0 sc1 : Nat, ∃ tbl : Table, ∃ rest : List Call, ∃ p : Proc,
      runPipeline oA (r0 :: r1 :: r2 :: more) p0 = .ok p ∧
      p.trace = p0.trace ++ [.pipe fc0 fc1, .pipe sc0 sc1, .fork 0, .close 1, .close fc0,
        .dup fc1 1, .execvp r0.head?.join r0 tbl oA.exec1] ++ rest ∧
      lookup tbl fc0 = none ∧ lookup tbl fc1 = some (.pipeWrite 0)) ∧
    (∃ fc0 fc1 sc0 sc1 : Nat, ∃ tbl : Table, ∃ rest : List Call, ∃ p : Proc,
      runPipeline oB (r0 :: r1 :: r2 :: more) p0 = .ok p ∧
      p.trace = p0.trace ++ [.pipe fc0 fc1, .pipe sc0 sc1, .fork oB.fork1, .fork 0, .close 0,
        .close fc1, .dup fc0 0, .close 1, .close sc0, .dup sc1 1,
        .execvp r1.head?.join r1 tbl oB.exec2] ++ rest ∧
      lookup tbl fc1 = none ∧ lookup tbl sc0 = none ∧
      lookup tbl fc0 = some (.pipeRead 0) ∧ lookup tbl sc1 = some (.pipeWrite 1)) ∧
    (∃ fc0 fc1 sc0 sc1 : Nat, ∃ tbl : Table, ∃ rest : List Call, ∃ p : Proc,
      runPipeline oC (r0 :: r1 :: r2 :: more) p0 = .ok p ∧
      p.trace = p0.trace ++ [.pipe fc0 fc1, .pipe sc0 sc1, .fork oC.fork1, .fork oC.fork2,
        .close fc0, .close fc1, .fork 0, .close sc1, .close 0, .dup sc0 0,
        .execvp r2.head?.join r2 tbl oC.exec3] ++ rest ∧
      lookup tbl sc1 = none ∧ lookup tbl fc0 = none ∧ lookup tbl fc1 = none ∧
      lookup tbl sc0 = some (.pipeRead 1)) := by
  refine ⟨?_, ?_, ?_⟩
  · obtain ⟨fc0, fc1, sc0, sc1, tbl, rest, p, hr, ht, -, -, T2, T3, -, -⟩ :=
      stage0_at_exec oA r0 r1 r2 more p0 a b h0 h1 hA
    exact ⟨fc0, fc1, sc0, sc1, tbl, rest, p, hr, ht, T2, T3⟩
  · obtain ⟨fc0, fc1, sc0, sc1, tbl, rest, p, hr, ht, -, -, T2, T3, T4, T5⟩ :=
      stage1_at_exec oB r0 r1 r2 more p0 a b h0 h1 hB1 hB2
    exact ⟨fc0, fc1, sc0, sc1, tbl, rest, p, hr, ht, T3, T4, T2, T5⟩
  · obtain ⟨fc0, fc1, sc0, sc1, tbl, rest, p, hr, ht, -, -, T2, T3, T4, T5⟩ :=
      stage2_at_exec oC r0 r1 r2 more p0 a b h0 h1 hC1 hC2 hC3
    exact ⟨fc0, fc1, sc0, sc1, tbl, rest, p, hr, ht, T5, T2, T3, T4⟩

/-- Witness of C5 amended: the line `ls | sort | head` in a shell started with
descriptors 0, 1 and 2. -/
theorem children_close_the_opposite_ends_witness :
    (∃ fc0 fc1 sc0 sc1 : Nat, ∃ tbl : Table, ∃ rest : List Call, ∃ p : Proc,
      runPipeline stage0Oracle ([some "ls".toList, none] :: [some "sort".toList, none] ::
        [some "head".toList, none] :: []) proc0 = .ok p ∧
      p.trace = proc0.trace ++ [.pipe fc0 fc1, .pipe sc0 sc1, .fork 0, .close 1, .close fc0,
        .dup fc1 1, .execvp [some "ls".toList, none].head?.join [some "ls".toList, none] tbl
          stage0Oracle.exec1] ++ rest ∧
      lookup tbl fc0 = none ∧ lookup tbl fc1 = some (.pipeWrite 0)) ∧
    (∃ fc0 fc1 sc0 sc1 : Nat, ∃ tbl : Table, ∃ rest : List Call, ∃ p : Proc,
      runPipeline stage1Oracle ([some "ls".toList, none] :: [some "sort".toList, none] ::
        [some "head".toList, none] :: []) proc0 = .ok p ∧
      p.trace = proc0.trace ++ [.pipe fc0 fc1, .pipe sc0 sc1, .fork stage1Oracle.fork1,
        .fork 0, .close 0, .close fc1, .dup fc0 0, .close 1, .close sc0, .dup sc1 1,
        .execvp [some "sort".toList, none].head?.join [some "sort".toList, none] tbl
          stage1Oracle.exec2] ++ rest ∧
      lookup tbl fc1 = none ∧ lookup tbl sc0 = none ∧
      lookup tbl fc0 = some (.pipeRead 0) ∧ lookup tbl sc1 = some (.pipeWrite 1)) ∧
    (∃ fc0 fc1 sc0 sc1 : Nat, ∃ tbl : Table, ∃ rest : List Call, ∃ p : Proc,
      runPipeline stage2Oracle ([some "ls".toList, none] :: [some "sort".toList, none] ::
        [some "head".toList, none] :: []) proc0 = .ok p ∧
      p.trace = proc0.trace ++ [.pipe fc0 fc1, .pipe sc0 sc1, .fork stage2Oracle.fork1,
        .fork stage2Oracle.fork2, .close fc0, .close fc1, .fork 0, .close sc1, .close 0,
        .dup sc0 0,
        .execvp [some "head".toList, none].head?.join [some "head".toList, none] tbl
          stage2Oracle.exec3] ++ rest ∧
      lookup tbl sc1 = none ∧ lookup tbl fc0 = none ∧ lookup tbl fc1 = none ∧
      lookup tbl sc0 = some (.pipeRead 1)) :=
  children_close_the_opposite_ends stage0Oracle stage1Oracle stage2Oracle
    [some "ls".toList, none] [some "sort".toList, none] [some "head".toList, none] [] proc0
    (.inherited 0) (.inherited 1)
    (by decide) (by decide) (by decide) (by decide) (by decide) (by decide) (by decide)
    (by decide)

/-- C7, the code at a stage whose `execvp` fails: for the line
`nosuchprog | sort | head` the first child, after its `execvp` has returned,
prints nothing and does not end; it carries on in `main`: it forks twice (the
children 12 and 13 are its own), closes the four pipe descriptors, waits for
its two children and only then returns 0. -/
theorem failed_exec_falls_through_main :
    (pipingMain failedStage0Oracle "nosuchprog | sort | head\n".toList proc0).toOption.map
        Proc.trace =
      some [.pipe 3 4, .pipe 5 6, .fork 0, .close 1, .close 3, .dup 4 1,
        .execvp (some "nosuchprog".toList) [some "nosuchprog".toList, none]
          [some (.inherited 0), some (.pipeWrite 0), some (.inherited 2), none,
           some (.pipeWrite 0), some (.pipeRead 1), some (.pipeWrite 1)] false,
        .fork 12, .close 3, .close 4, .fork 13, .close 6, .close 5,
        .wait 13, .wait 12, .wait (-1), .exit 0] := by
  decide

/-! ## The stage split of the pipeline shell -/

theorem strtok_rest_lt (d s tok rest : CStr) (h : strtok d s = some (tok, rest)) :
    rest.length < s.length := by
  unfold strtok at h
  have hle := (List.dropWhile_sublist (l := s) (fun c => decide (c ∈ d))).length_le
  cases hd : s.dropWhile (fun c => decide (c ∈ d)) with
  | nil => simp [hd] at h
  | cons c cs =>
    rw [hd] at h hle
    simp only [Option.some.injEq, Prod.mk.injEq] at h
    obtain ⟨-, hrest⟩ := h
    have h2 := (List.dropWhile_sublist (l := c :: cs) (fun c => !decide (c ∈ d))).length_le
    rw [← hrest, List.length_drop]
    simp only [List.length_cons] at hle h2
    omega

theorem tokenLoop_fuel (d : CStr) (n m : Nat) (s : CStr) (hn : s.length < n)
    (hm : s.length < m) : tokenLoop d n s = tokenLoop d m s := by
  induction n generalizing m s with
  | zero => omega
  | succ n ih =>
    cases m with
    | zero => omega
    | succ m =>
      simp only [tokenLoop]
      cases h : strtok d s with
      | none => rfl
      | some tr =>
        obtain ⟨tok, rest⟩ := tr
        have := strtok_rest_lt d s tok rest h
        simp only
        rw [ih m rest (by omega) (by omega)]

theorem tokens_unfold (d s : CStr) :
    tokens d s = match strtok d s with
      | none => []
      | some (tok, rest) => tok :: tokens d rest := by
  unfold tokens
  rw [tokenLoop]
  cases h : strtok d s with
  | none => rfl
  | some tr =>
    obtain ⟨tok, rest⟩ := tr
    have := strtok_rest_lt d s tok rest h
    simp only
    rw [tokenLoop_fuel d s.length (rest.length + 1) rest (by omega) (by omega)]

theorem strtok_skip (d : CStr) (c : Char) (s : CStr) (hc : c ∈ d) :
    strtok d (c :: s) = strtok d s := by
  simp [strtok, List.dropWhile_cons, hc]

theorem tokens_skip (d : CStr) (c : Char) (s : CStr) (hc : c ∈ d) :
    tokens d (c :: s) = tokens d s := by
  rw [tokens_unfold d (c :: s), tokens_unfold d s, strtok_skip d c s hc]

theorem takeWhile_word (q : Char → Bool) (w rest : CStr) (hw : ∀ c ∈ w, q c = true)
    (hrest : ∀ c, rest.head? = some c → q c = false) :
    (w ++ rest).takeWhile q = w ∧ (w ++ rest).dropWhile q = rest := by
  induction w with
  | nil =>
    cases rest with
    | nil => simp
    | cons x xs =>
      have := hrest x rfl
      simp [List.takeWhile_cons, List.dropWhile_cons, this]
  | cons c w ih =>
    have hc := hw c (List.mem_cons_self _ _)
    obtain ⟨i1, i2⟩ := ih (fun x hx => hw x (List.mem_cons_of_mem _ hx))
    simp [List.takeWhile_cons, List.dropWhile_cons, hc, i1, i2]

theorem strtok_word (d : CStr) (c : Char) (w rest : CStr) (hc : c ∉ d)
    (hw : ∀ x ∈ w, x ∉ d) (hrest : ∀ x, rest.head? = some x → x ∈ d) :
    strtok d (c :: w ++ rest) = some (c :: w, rest.drop 1) := by
  have hq : ∀ x ∈ c :: w, (fun x => !decide (x ∈ d)) x = true := by
    intro x hx
    rcases List.mem_cons.1 hx with rfl | hx
    · simpa using hc
    · simpa using hw x hx
  have hr : ∀ x, rest.head? = some x → (fun x => !decide (x ∈ d)) x = false := by
    intro x hx
    simpa using hrest x hx
  obtain ⟨t1, t2⟩ := takeWhile_word _ (c :: w) rest hq hr
  have hdrop : (c :: w ++ rest).dropWhile (fun c => decide (c ∈ d)) = c :: w ++ rest := by
    simp [List.dropWhile_cons, hc]
  unfold strtok
  rw [hdrop]
  simp only [List.cons_append] at t1 t2 ⊢
  rw [t1, t2]

theorem tokens_joinStages (ws : List CStr)
    (hw : ∀ w ∈ ws, w ≠ [] ∧ ' ' ∉ w ∧ '|' ∉ w) :
    tokens pipeDelim (joinStages ws) = ws := by
  have hd : ∀ w ∈ ws, ∀ x ∈ w, x ∉ pipeDelim := by
    intro w hwm x hx hxd
    obtain ⟨-, h1, h2⟩ := hw w hwm
    simp only [pipeDelim, List.mem_cons, List.mem_singleton, List.not_mem_nil, or_false]
      at hxd
    rcases hxd with rfl | rfl | rfl
    · exact h1 hx
    · exact h2 hx
    · exact h1 hx
  induction ws with
  | nil => decide
  | cons w ws ih =>
    obtain ⟨hne, -, -⟩ := hw w (List.mem_cons_self _ _)
    cases w with
    | nil => exact absurd rfl hne
    | cons c w =>
      have hc : c ∉ pipeDelim := hd (c :: w) (List.mem_cons_self _ _) c (List.mem_cons_self _ _)
      have hww : ∀ x ∈ w, x ∉ pipeDelim := fun x hx =>
        hd (c :: w) (List.mem_cons_self _ _) x (List.mem_cons_of_mem _ hx)
      cases ws with
      | nil =>
        have := strtok_word pipeDelim c w [] hc hww (by simp)
        simp only [List.append_nil, List.drop_nil] at this
        rw [joinStages, tokens_unfold, this]
        simp only
        rw [tokens_unfold]
        rfl
      | cons w' ws' =>
        have := strtok_word pipeDelim c w (pipeDelim ++ joinStages (w' :: ws')) hc hww
          (by intro x hx; simp [pipeDelim] at hx; simp [pipeDelim, ← hx])
        rw [joinStages, tokens_unfold, List.append_assoc, this]
        simp only [pipeDelim, List.cons_append, List.nil_append, List.drop_succ_cons,
          List.drop_zero]
        rw [tokens_skip _ _ _ (by decide), tokens_skip _ _ _ (by decide)]
        have ih' := ih (fun x hx => hw x (List.mem_cons_of_mem _ hx))
          (fun x hx => hd x (List.mem_cons_of_mem _ hx))
        simp only [pipeDelim] at ih'
        rw [ih']

theorem tokens_nil (d : CStr) : tokens d [] = [] := rfl

theorem tokens_eq_splitOnP_aux (d : CStr) (n : Nat) :
    ∀ s : CStr, s.length ≤ n →
      tokens d s = (s.splitOnP (fun c => decide (c ∈ d))).filter (fun t => !t.isEmpty) := by
  induction n with
  | zero =>
    intro s hs
    have : s = [] := List.length_eq_zero.1 (by omega)
    subst this
    rfl
  | succ n ih =>
    intro s hs
    cases s with
    | nil => rfl
    | cons c s' =>
      have hlen : s'.length ≤ n := by simpa using hs
      by_cases hc : c ∈ d
      · rw [tokens_skip _ _ _ hc, List.splitOnP_cons, ih s' hlen]
        simp [hc]
      · have hs' : s' = s'.takeWhile (fun x => !decide (x ∈ d)) ++
            s'.dropWhile (fun x => !decide (x ∈ d)) :=
          (List.takeWhile_append_dropWhile _ _).symm
        have hw : ∀ x ∈ s'.takeWhile (fun x => !decide (x ∈ d)), x ∉ d := by
          intro x hx
          simpa using List.mem_takeWhile_imp hx
        have hrest : ∀ x, (s'.dropWhile (fun x => !decide (x ∈ d))).head? = some x → x ∈ d := by
          intro x hx
          have := List.head?_dropWhile_not (fun x => !decide (x ∈ d)) s'
          rw [hx] at this
          simpa using this
        have hsub := (List.dropWhile_sublist (l := s') (fun x => !decide (x ∈ d))).length_le
        generalize s'.takeWhile (fun x => !decide (x ∈ d)) = w at hs' hw
        generalize s'.dropWhile (fun x => !decide (x ∈ d)) = rest at hs' hrest hsub
        subst hs'
        have hnp : ∀ x ∈ c :: w, ¬ (fun c => decide (c ∈ d)) x = true := by
          intro x hx
          rcases List.mem_cons.1 hx with rfl | hx
          · simpa using hc
          · simpa using hw x hx
        rw [tokens_unfold, ← List.cons_append, strtok_word d c w rest hc hw hrest]
        cases rest with
        | nil =>
          simp only [List.drop_nil, List.append_nil, tokens_nil]
          rw [List.splitOnP_eq_single _ _ hnp]
          rfl
        | cons x as =>
          have hx : x ∈ d := hrest x rfl
          have hlen' : as.length ≤ n := by
            simp only [List.length_cons] at hsub
            omega
          simp only [List.drop_succ_cons, List.drop_zero]
          rw [List.splitOnP_first _ _ hnp x (by simpa using hx) as, ih as hlen']
          rfl

/-- The tokens of `strtok` are the non-empty pieces of the text split at every
delimiter character. -/
theorem tokens_eq_splitOnP (d s : CStr) :
    tokens d s = (s.splitOnP (fun c => decide (c ∈ d))).filter (fun t => !t.isEmpty) :=
  tokens_eq_splitOnP_aux d s.length s (Nat.le_refl _)

theorem countLoop_eq (fuel : Nat) (s : CStr) (n : Nat) :
    countLoop fuel (strtok pipeDelim s) n = n + (tokenLoop pipeDelim fuel s).length := by
  induction fuel generalizing s n with
  | zero => simp [countLoop, tokenLoop]
  | succ k ih =>
    cases h : strtok pipeDelim s with
    | none => simp [countLoop, tokenLoop, h]
    | some tr =>
      obtain ⟨tok, rest⟩ := tr
      simp only [countLoop, tokenLoop, h, ih, List.length_cons]
      omega

theorem buildLoop_eq (fuel : Nat) (s : CStr) (acc : List (List (Option CStr)))
    (hfit : ∀ t ∈ tokenLoop pipeDelim fuel s, t.length + 1 ≤ smallBlock) :
    buildLoop (tokenLoop pipeDelim fuel s).length (strtok pipeDelim s) acc =
      .ok (acc ++ (tokenLoop pipeDelim fuel s).map (fun t => [some t, none])) := by
  induction fuel generalizing s acc with
  | zero => simp [buildLoop, tokenLoop]
  | succ k ih =>
    cases h : strtok pipeDelim s with
    | none => simp [buildLoop, tokenLoop, h]
    | some tr =>
      obtain ⟨tok, rest⟩ := tr
      simp only [tokenLoop, h, List.mem_cons, forall_eq_or_imp] at hfit
      simp only [buildLoop, tokenLoop, h, mallocStrcpy_fits tok hfit.1, ih rest _ hfit.2,
        List.length_cons, List.map_cons, List.append_assoc, List.singleton_append]

/-- On a line whose tokens fit their blocks, lines 22-44 never hand `NULL` to
`strcpy`: `numArgs` is the number of tokens of the line for the delimiter
characters space and bar, and row `i` of `execs` is token `i` followed by
`NULL`. -/
theorem parseStages_eq (line : CStr)
    (hfit : ∀ t ∈ tokens pipeDelim line, t.length + 1 ≤ smallBlock) :
    parseStages line = .ok ((tokens pipeDelim line).length,
      (tokens pipeDelim line).map (fun t => [some t, none])) := by
  unfold parseStages
  simp only [countLoop_eq, Nat.zero_add]
  unfold tokens at hfit
  have := buildLoop_eq (line.length + 1) line [] hfit
  simp only [List.nil_append] at this
  unfold tokens
  rw [this]

theorem stageNames_rows (ts : List CStr) :
    stageNames (ts.map (fun t => [some t, none])) = ts.map some := by
  induction ts with
  | nil => rfl
  | cons t ts ih =>
    simp only [stageNames, List.map_cons, List.map_map] at ih ⊢
    rw [ih]
    rfl

theorem splitOnSepAux_ne_nil (sep s : CStr) (k : Nat) : splitOnSepAux sep s k ≠ [] := by
  induction s generalizing k with
  | nil => simp [splitOnSepAux]
  | cons c cs ih =>
    cases k with
    | succ k => simpa [splitOnSepAux] using ih k
    | zero =>
      simp only [splitOnSepAux]
      split
      · simp
      · split <;> simp

theorem splitOnSepAux_word (w rest : CStr) (hw : ' ' ∉ w) :
    splitOnSepAux pipeDelim (w ++ rest) 0 =
      (w ++ (splitOnSepAux pipeDelim rest 0).headD []) ::
        (splitOnSepAux pipeDelim rest 0).tail := by
  induction w with
  | nil =>
    have := splitOnSepAux_ne_nil pipeDelim rest 0
    cases h : splitOnSepAux pipeDelim rest 0 with
    | nil => exact absurd h this
    | cons p ps => simp [h]
  | cons c w ih =>
    have hc : ¬ (' ' = c) := fun h => hw (h ▸ List.mem_cons_self _ _)
    have hw' : ' ' ∉ w := fun h => hw (List.mem_cons_of_mem _ h)
    have hpre : pipeDelim.isPrefixOf (c :: (w ++ rest)) = false := by
      simp [pipeDelim, List.isPrefixOf, hc]
    show splitOnSepAux pipeDelim (c :: (w ++ rest)) 0 = _
    rw [splitOnSepAux, if_neg (by rw [hpre]; exact Bool.false_ne_true), ih hw']
    simp

theorem splitOnSepAux_sep (rest : CStr) :
    splitOnSepAux pipeDelim (pipeDelim ++ rest) 0 = [] :: splitOnSepAux pipeDelim rest 0 := by
  simp [pipeDelim, splitOnSepAux, List.isPrefixOf]

theorem splitOnSep_joinStages (ws : List CStr) (hne : ws ≠ []) (hw : ∀ w ∈ ws, ' ' ∉ w) :
    splitOnSep pipeDelim (joinStages ws) = ws := by
  unfold splitOnSep
  induction ws with
  | nil => exact absurd rfl hne
  | cons w ws ih =>
    have hw0 := hw w (List.mem_cons_self _ _)
    cases ws with
    | nil =>
      have := splitOnSepAux_word w [] hw0
      simp only [List.append_nil] at this
      rw [joinStages, this]
      simp [splitOnSepAux]
    | cons w' ws' =>
      rw [joinStages, List.append_assoc, splitOnSepAux_word w _ hw0, splitOnSepAux_sep,
        ih (by simp) (fun x hx => hw x (List.mem_cons_of_mem _ hx))]
      simp

/-- A stage name too long for its block: for a line that is one name of 40
characters the `strcpy` of line 40 writes 41 bytes into the block of
`malloc(sizeof(char*))` of line 39, which has room for 24, and `execs` is not
built. -/
theorem long_stage_name_overflows :
    parseStages "aaaaaaaaaaaaaaaaaaaaaaaaaaaaaaaaaaaaaaaa".toList =
      .error (.heapOverflow 41 24) := by
  rfl

/-- C8 as stated fails: for the line `ls | sort -r | head` splitting on the
separator ` | ` gives the three pieces `ls`, `sort -r`, `head`, but the code
sets `numArgs` to 4 and builds the four stage commands `ls`, `sort`, `-r`,
`head`. -/
theorem stage_with_argument_is_split_in_two :
    splitOnSep pipeDelim "ls | sort -r | head".toList =
      ["ls".toList, "sort -r".toList, "head".toList] ∧
    (parseStages "ls | sort -r | head".toList).toOption.map
        (fun r => (r.1, stageNames r.2)) =
      some (4, [some "ls".toList, some "sort".toList, some "-r".toList, some "head".toList]) ∧
    ¬ ((parseStages "ls | sort -r | head".toList).toOption.map
        (fun r => (r.1, stageNames r.2)) =
      some ((splitOnSep pipeDelim "ls | sort -r | head".toList).length,
        (splitOnSep pipeDelim "ls | sort -r | head".toList).map some)) := by
  decide

/-- C8 amended: `strtok` takes ` | ` as the set of delimiter characters space and
bar, so for every line whose non-empty pieces between spaces and bars are each
at most 23 characters long, the stage commands in `execs` are these pieces, in
order, and `numArgs` is their number (each row of `execs` being the command
followed by `NULL`); and when a line is one or more stage commands joined by
` | `, each a non-empty word of at most 23 characters with no space and no bar
in it (the lines without arguments that the code is written for), these are
exactly the pieces obtained by splitting the line on the separator ` | `, and
`numArgs` is the number of those pieces. -/
theorem stages_of_line (line : CStr) (ws : List CStr)
    (hfit : ∀ t ∈ (line.splitOnP (fun c => decide (c ∈ pipeDelim))).filter
      (fun t => !t.isEmpty), t.length + 1 ≤ smallBlock)
    (hne : ws ≠ [])
    (hw : ∀ w ∈ ws, w ≠ [] ∧ ' ' ∉ w ∧ '|' ∉ w ∧ w.length + 1 ≤ smallBlock) :
    (∃ execs,
      parseStages line = .ok
        (((line.splitOnP (fun c => decide (c ∈ pipeDelim))).filter
            (fun t => !t.isEmpty)).length, execs) ∧
      stageNames execs =
        ((line.splitOnP (fun c => decide (c ∈ pipeDelim))).filter
            (fun t => !t.isEmpty)).map some ∧
      ∀ row ∈ execs, row.length = 2 ∧ row.get? 1 = some none) ∧
    (∃ execs,
      parseStages (joinStages ws) =
        .ok ((splitOnSep pipeDelim (joinStages ws)).length, execs) ∧
      stageNames execs = (splitOnSep pipeDelim (joinStages ws)).map some ∧
      splitOnSep pipeDelim (joinStages ws) = ws) := by
  constructor
  · rw [← tokens_eq_splitOnP] at hfit
    refine ⟨(tokens pipeDelim line).map (fun t => [some t, none]), ?_, ?_, ?_⟩
    · rw [← tokens_eq_splitOnP]
      exact parseStages_eq line hfit
    · rw [← tokens_eq_splitOnP]
      exact stageNames_rows _
    · intro row hrow
      simp only [List.mem_map] at hrow
      obtain ⟨t, -, rfl⟩ := hrow
      simp
  · have hsplit : splitOnSep pipeDelim (joinStages ws) = ws :=
      splitOnSep_joinStages ws hne (fun w hwm => (hw w hwm).2.1)
    have htok : tokens pipeDelim (joinStages ws) = ws :=
      tokens_joinStages ws (fun w hwm => ⟨(hw w hwm).1, (hw w hwm).2.1, (hw w hwm).2.2.1⟩)
    refine ⟨(tokens pipeDelim (joinStages ws)).map (fun t => [some t, none]), ?_, ?_, hsplit⟩
    · have hp := parseStages_eq (joinStages ws)
        (by rw [htok]; exact fun w hwm => (hw w hwm).2.2.2)
      rw [hsplit]
      rw [htok] at hp ⊢
      exact hp
    · rw [stageNames_rows, hsplit, htok]

/-- Witness of C8 amended: the line `ls | sort -r | head` for the general part,
the stage commands `ls`, `sort`, `head` for the part on lines without
arguments. -/
theorem stages_of_line_witness :
    (∃ execs,
      parseStages "ls | sort -r | head".toList = .ok
        ((("ls | sort -r | head".toList.splitOnP (fun c => decide (c ∈ pipeDelim))).filter
            (fun t => !t.isEmpty)).length, execs) ∧
      stageNames execs =
        (("ls | sort -r | head".toList.splitOnP (fun c => decide (c ∈ pipeDelim))).filter
            (fun t => !t.isEmpty)).map some ∧
      ∀ row ∈ execs, row.length = 2 ∧ row.get? 1 = some none) ∧
    (∃ execs,
      parseStages (joinStages ["ls".toList, "sort".toList, "head".toList]) =
        .ok ((splitOnSep pipeDelim
          (joinStages ["ls".toList, "sort".toList, "head".toList])).length, execs) ∧
      stageNames execs = (splitOnSep pipeDelim
        (joinStages ["ls".toList, "sort".toList, "head".toList])).map some ∧
      splitOnSep pipeDelim (joinStages ["ls".toList, "sort".toList, "head".toList]) =
        ["ls".toList, "sort".toList, "head".toList]) :=
  stages_of_line "ls | sort -r | head".toList ["ls".toList, "sort".toList, "head".toList]
    (by decide) (by decide) (by decide)

end Portfolio
